import Mathlib

/-!
# Verification of the PR-comments core (retry client, thread builder, resolver)

This file is a shallow embedding, in Lean 4, of the core logic of the
PR-comments editor extension:

* `calculateRetryDelay`, `validateToken`, `fetchPRCommentsWithRetry`
  (the retrying fetch client; `src/github/client.ts` / `src/utils/config.ts`),
* `buildThreads`, `filterThreads` and the count functions
  (the thread builder; `src/views/commentTreeProvider.ts`),
* `parseGitRemoteUrl`, `extractPRNumberFromBranch`
  (the branch/PR resolver; `src/git/repository.ts`).

JavaScript semantics is embedded explicitly:

* string/number truthiness (`""`, `0`, `undefined` are falsy) is modelled by
  dedicated helpers;
* `parseInt(s, 10)` is modelled by `jsParseInt` (leading whitespace, optional
  sign, longest digit prefix; `none` plays the role of `NaN`);
* JavaScript `Map` insertion-order semantics (set of an existing key keeps its
  position, new keys append) is modelled by association lists with `mapSet` /
  `mapGet`;
* `Array.prototype.sort` (stable since ES2019, and Node 20 is the target
  runtime) with comparator `(a, b) => key a - key b` is modelled by
  `List.insertionSort` with the total preorder `key a ≤ key b`, which computes
  exactly the stable ascending-by-key sort;
* ISO-8601 timestamp strings (`createdAt` fields, consumed only through
  `new Date(x || 0).getTime()`) are abstracted as `Option Nat` epoch
  milliseconds, missing timestamps being `none`;
* the network is abstracted as a function `Nat → AttemptOutcome` giving the
  outcome of each attempt; the run result records the produced `FetchResult`,
  the number of listing calls performed and the list of sleep delays.
-/

/-! ## JavaScript primitive semantics -/

/-- The whitespace characters recognised by JS `parseInt` / `String.trim`
(the ASCII subset; the claims only involve ASCII strings). -/
def isWSChar (c : Char) : Bool :=
  c = ' ' || c = '\t' || c = '\n' || c = '\r' || c = '\x0b' || c = '\x0c'

/-- Numeric value of a decimal digit character. -/
def digitVal (c : Char) : Nat := c.toNat - '0'.toNat

/-- Value of a (nonempty) decimal digit run, most significant first. -/
def digitsToNat (ds : List Char) : Nat := ds.foldl (fun n c => n * 10 + digitVal c) 0

/-- JS `parseInt(s, 10)` on a character list: skip leading whitespace, read an
optional sign, then the longest run of decimal digits; `none` models `NaN`
(no digits found). Trailing garbage is ignored, exactly as in JS. -/
def jsParseIntCore (s : List Char) : Option Int :=
  match s.dropWhile isWSChar with
  | '-' :: r =>
    let ds := r.takeWhile Char.isDigit
    if ds.isEmpty then none else some (-(digitsToNat ds : Int))
  | '+' :: r =>
    let ds := r.takeWhile Char.isDigit
    if ds.isEmpty then none else some (digitsToNat ds : Int)
  | r =>
    let ds := r.takeWhile Char.isDigit
    if ds.isEmpty then none else some (digitsToNat ds : Int)

/-- JS `parseInt(s, 10)` on a string. -/
def jsParseInt (s : String) : Option Int := jsParseIntCore s.data

/-- JS truthiness of an optional string (`undefined` and `""` are falsy). -/
def optStrTruthy (o : Option String) : Bool :=
  match o with
  | some s => s ≠ ""
  | none => false

/-- JS truthiness of an optional number (`undefined` and `0` are falsy). -/
def optNatTruthy (o : Option Nat) : Bool :=
  match o with
  | some n => n ≠ 0
  | none => false

/-- JS `a || b` for an optional string `a` (used for defaulted fields). -/
def jsOrStr (o : Option String) (d : String) : String :=
  match o with
  | some s => if s ≠ "" then s else d
  | none => d

/-- JS `String.prototype.trim` (ASCII whitespace subset). -/
def jsTrim (s : String) : String :=
  (((s.data.dropWhile isWSChar).reverse.dropWhile isWSChar).reverse).asString

/-- Substring containment (used to state that an error message names the PR
number and the repository). -/
def strContains (s pat : String) : Prop := pat.data <:+: s.data

instance (s pat : String) : Decidable (strContains s pat) :=
  inferInstanceAs (Decidable (pat.data <:+: s.data))

/-! ## Retry delay (github/client.ts, `calculateRetryDelay`) -/

/-- `INITIAL_RETRY_DELAY_MS` from the source. -/
def INITIAL_RETRY_DELAY_MS : Int := 1000

/-- Embedding of `calculateRetryDelay(attempt, retryAfter?)`:
if `retryAfter` is truthy and `parseInt(retryAfter, 10)` is not `NaN`, the
delay is `seconds * 1000`; otherwise `1000 * 2 ^ attempt`. The result is an
`Int` because JS `parseInt` can produce negative values. -/
def calculateRetryDelay (attempt : Nat) (retryAfter : Option String) : Int :=
  match retryAfter with
  | some ra =>
    if ra ≠ "" then
      match jsParseInt ra with
      | some seconds => seconds * 1000
      | none => INITIAL_RETRY_DELAY_MS * 2 ^ attempt
    else INITIAL_RETRY_DELAY_MS * 2 ^ attempt
  | none => INITIAL_RETRY_DELAY_MS * 2 ^ attempt

/-! ## Token validation (utils/config.ts, `validateToken`) -/

/-- Result record of `validateToken`. -/
structure TokenValidation where
  valid : Bool
  message : Option String := none
  deriving Repr, DecidableEq

/-- The recognised GitHub token formats (`validPrefixes` in the source). -/
def tokenPrefixes : List String := ["ghp_", "github_pat_", "gho_", "ghu_", "ghs_", "ghr_"]

/-- Embedding of `validateToken(token)` from `utils/config.ts`: empty or
all-whitespace tokens are rejected; otherwise a token without a recognised
provider prefix and shorter than 20 characters is rejected; everything else
passes local validation. -/
def validateToken (token : String) : TokenValidation :=
  if token = "" || jsTrim token = "" then
    { valid := false, message := some "GitHub token is empty" }
  else
    let hasRecognised := tokenPrefixes.any (fun p => p.data.isPrefixOf token.data)
    if !hasRecognised && token.length < 20 then
      { valid := false, message := some "Token appears too short to be valid" }
    else
      { valid := true }

/-! ## Data model (models/comment.ts) -/

/-- Embedding of the `PRComment` interface. `createdAt`/`updatedAt` are the
abstracted epoch-millisecond values of the ISO timestamp strings (`none` when
the field is absent); `inReplyToId` and `resolved` keep their optionality so
that JS truthiness can be modelled faithfully. -/
structure PRComment where
  path : String
  line : Nat
  body : String
  user : String
  id : Nat
  createdAt : Option Nat := none
  updatedAt : Option Nat := none
  inReplyToId : Option Nat := none
  resolved : Option Bool := none
  diffHunk : Option String := none
  commitId : Option String := none
  authorAssociation : Option String := none
  deriving Repr, DecidableEq

/-- Embedding of the `CommentThread` interface. -/
structure CommentThread where
  id : Nat
  path : String
  line : Nat
  rootComment : PRComment
  replies : List PRComment
  resolved : Bool
  participants : List String
  deriving Repr, DecidableEq

/-- Embedding of the `FetchResult` interface (`rateLimitReset` as epoch
milliseconds). -/
structure FetchResult where
  success : Bool
  comments : List PRComment
  error : Option String := none
  rateLimitRemaining : Option Int := none
  rateLimitReset : Option Int := none
  deriving Repr, DecidableEq

/-! ## Fetch client (github/client.ts, `fetchPRCommentsWithRetry`) -/

/-- One raw review-comment record as returned by the listing endpoint, with
exactly the fields the client consumes. `line` may be absent (outdated-diff
comments), `user` may be absent or have an empty login. -/
structure RawComment where
  path : String
  line : Option Nat := none
  body : Option String := none
  userLogin : Option String := none
  id : Nat
  createdAt : Option Nat := none
  updatedAt : Option Nat := none
  inReplyToId : Option Nat := none
  diffHunk : Option String := none
  commitId : Option String := none
  authorAssociation : Option String := none
  deriving Repr, DecidableEq

/-- The error shape inspected by the catch block: `gh` is the
`isGitHubError(error)` test (error is a non-null object), `status` the HTTP
status when present, `retryAfter` the `retry-after` response header when
present, `message` the error message text. -/
structure GHErrorInfo where
  gh : Bool
  status : Option Nat := none
  retryAfter : Option String := none
  message : String := ""
  deriving Repr, DecidableEq

/-- Outcome of one attempt of the paginated listing call: either the data and
the two rate-limit headers, or a thrown error. -/
inductive AttemptOutcome where
  | ok (comments : List RawComment) (rlRemaining : Option String) (rlReset : Option String)
  | err (e : GHErrorInfo)
  deriving Repr, DecidableEq

/-- Mapping of one raw record into the `PRComment` shape (the `.map` in the
success path). `line!` is justified by the preceding filter. -/
def rawToPR (c : RawComment) : PRComment :=
  { path := c.path
    line := c.line.getD 0
    body := jsOrStr c.body ""
    user := jsOrStr c.userLogin "Unknown"
    id := c.id
    createdAt := c.createdAt
    updatedAt := c.updatedAt
    inReplyToId := c.inReplyToId
    diffHunk := c.diffHunk
    commitId := c.commitId
    authorAssociation := c.authorAssociation }

/-- The success path of an attempt: filter out records missing a path or a
line, map the rest to `PRComment`, and capture the rate-limit headers
(a header that parses as `NaN` is abstracted to `none`). -/
def processSuccess (comments : List RawComment) (hRem hReset : Option String) : FetchResult :=
  { success := true
    comments := (comments.filter (fun c => c.path ≠ "" && c.line.isSome)).map rawToPR
    error := none
    rateLimitRemaining := if optStrTruthy hRem then jsParseIntCore (hRem.getD "").data else none
    rateLimitReset :=
      if optStrTruthy hReset then (jsParseIntCore (hReset.getD "").data).map (· * 1000) else none }

/-- `MAX_RETRIES` from the source. -/
def MAX_RETRIES : Nat := 3

/-- The 404 error message built by the source
(`PR #N not found in owner/repo. Check the PR number and repository.`). -/
def notFoundMsg (owner repo : String) (prNumber : Nat) : String :=
  "PR #" ++ toString prNumber ++ " not found in " ++ owner ++ "/" ++ repo ++
    ". Check the PR number and repository."

/-- Result of a whole `fetchPRCommentsWithRetry` run: the returned
`FetchResult`, the number of listing calls performed (`calls`) and the sleep
delays in order (`sleeps`). -/
structure RunResult where
  result : FetchResult
  calls : Nat
  sleeps : List Int
  deriving Repr, DecidableEq

/-- The retry loop of `fetchPRCommentsWithRetry`, indexed by the current
attempt and the number of loop iterations still allowed
(`remaining = MAX_RETRIES - attempt` at the top-level call). Mirrors the
source's classification order: success, 401 (terminal), 404 (terminal),
403/429 (sleep with `retry-after`-aware delay, retry), truthy status ≥ 500
(sleep with backoff delay, retry), anything else (sleep with backoff delay
unless this was the last attempt, retry). -/
def fetchLoop (env : Nat → AttemptOutcome) (owner repo : String) (prNumber : Nat) :
    Nat → Nat → Option String → RunResult
  | _, 0, lastError =>
    ⟨{ success := false, comments := []
       error := some (jsOrStr lastError "Failed to fetch PR comments after multiple attempts") },
     0, []⟩
  | attempt, rem + 1, _lastError =>
    match env attempt with
    | .ok cs hR hS => ⟨processSuccess cs hR hS, 1, []⟩
    | .err e =>
      if e.gh && e.status == some 401 then
        ⟨{ success := false, comments := []
           error := some "Authentication failed. Please check your GitHub token." }, 1, []⟩
      else if e.gh && e.status == some 404 then
        ⟨{ success := false, comments := []
           error := some (notFoundMsg owner repo prNumber) }, 1, []⟩
      else if e.gh && (e.status == some 403 || e.status == some 429) then
        let d := calculateRetryDelay attempt e.retryAfter
        let r := fetchLoop env owner repo prNumber (attempt + 1) rem (some e.message)
        ⟨r.result, r.calls + 1, d :: r.sleeps⟩
      else if e.gh && optNatTruthy e.status && 500 ≤ e.status.getD 0 then
        let d := calculateRetryDelay attempt none
        let r := fetchLoop env owner repo prNumber (attempt + 1) rem (some e.message)
        ⟨r.result, r.calls + 1, d :: r.sleeps⟩
      else if attempt < MAX_RETRIES - 1 then
        let d := calculateRetryDelay attempt none
        let r := fetchLoop env owner repo prNumber (attempt + 1) rem (some e.message)
        ⟨r.result, r.calls + 1, d :: r.sleeps⟩
      else
        let r := fetchLoop env owner repo prNumber (attempt + 1) rem (some e.message)
        ⟨r.result, r.calls + 1, r.sleeps⟩

/-- Embedding of `fetchPRCommentsWithRetry(owner, repo, prNumber, token?)`.
`cfgGithubToken` is the configuration store's `githubToken` value; `env` is
the abstracted network. The effective credential is `token || config
.githubToken`; a falsy or locally invalid credential returns immediately with
no call. -/
def fetchPRCommentsWithRetry (cfgGithubToken : String) (env : Nat → AttemptOutcome)
    (owner repo : String) (prNumber : Nat) (token : Option String) : RunResult :=
  let authToken := jsOrStr token cfgGithubToken
  if authToken = "" then
    ⟨{ success := false, comments := []
       error := some "GitHub token is not configured. Please set prComments.githubToken in settings." },
     0, []⟩
  else
    let v := validateToken authToken
    if !v.valid then
      ⟨{ success := false, comments := [], error := v.message }, 0, []⟩
    else
      fetchLoop env owner repo prNumber 0 MAX_RETRIES none

/-! ## JS `Map` model (insertion-order association lists) -/

/-- `Map.prototype.get`: the value of the first (and, as maps are built only
through `mapSet`, unique) entry with the given key. -/
def mapGet {β : Type} (m : List (Nat × β)) (k : Nat) : Option β :=
  match m with
  | [] => none
  | (k', v) :: rest => if k' = k then some v else mapGet rest k

/-- `Map.prototype.set`: overwrite in place when the key exists (keeping its
position in iteration order), append otherwise. -/
def mapSet {β : Type} (m : List (Nat × β)) (k : Nat) (v : β) : List (Nat × β) :=
  match m with
  | [] => [(k, v)]
  | (k', v') :: rest => if k' = k then (k', v) :: rest else (k', v') :: mapSet rest k v

/-- The keys of a map in iteration order. -/
def mapKeys {β : Type} (m : List (Nat × β)) : List Nat := m.map (·.1)

/-! ## Thread builder (views/commentTreeProvider.ts, `buildThreads`) -/

/-- The comparison used to sort replies:
`new Date(a.createdAt || 0).getTime() - new Date(b.createdAt || 0).getTime()`,
i.e. ascending by epoch milliseconds with a missing timestamp read as the
epoch. -/
def replyLE (a b : PRComment) : Prop := a.createdAt.getD 0 ≤ b.createdAt.getD 0

instance : DecidableRel replyLE := fun a b =>
  inferInstanceAs (Decidable (a.createdAt.getD 0 ≤ b.createdAt.getD 0))

instance : IsTotal PRComment replyLE := ⟨fun _ _ => Nat.le_total _ _⟩

instance : IsTrans PRComment replyLE := ⟨fun _ _ _ => Nat.le_trans⟩

/-- `replies.sort((a, b) => ...)`: the stable ascending sort by creation
time, which `insertionSort` with the total preorder `replyLE` computes. -/
def sortReplies (l : List PRComment) : List PRComment := List.insertionSort replyLE l

/-- One step of the participant collection:
`if (!thread.participants.includes(reply.user)) thread.participants.push(...)`. -/
def addParticipant (ps : List String) (u : String) : List String :=
  if u ∈ ps then ps else ps ++ [u]

/-- The thread record created for a root comment in the first pass. -/
def newThread (c : PRComment) : CommentThread :=
  { id := c.id
    path := c.path
    line := c.line
    rootComment := c
    replies := []
    resolved := c.resolved.getD false
    participants := [c.user] }

/-- First pass of `buildThreads`: walk the comment list once, sending each
comment with a truthy `inReplyToId` to the reply map (appended to its
parent's group) and every other comment to the thread map as a root. -/
def firstPassAux : List (Nat × CommentThread) → List (Nat × List PRComment) →
    List PRComment → List (Nat × CommentThread) × List (Nat × List PRComment)
  | tm, rm, [] => (tm, rm)
  | tm, rm, c :: cs =>
    if optNatTruthy c.inReplyToId then
      let pid := c.inReplyToId.getD 0
      firstPassAux tm (mapSet rm pid ((mapGet rm pid).getD [] ++ [c])) cs
    else
      firstPassAux (mapSet tm c.id (newThread c)) rm cs

/-- Attaching one reply group to its thread (second pass body): the group is
sorted in place, stored as `replies`, and the loop over the (now sorted)
array appends each previously unseen author to `participants`. -/
def attachReplies (t : CommentThread) (g : List PRComment) : CommentThread :=
  let sorted := sortReplies g
  { t with
    replies := sorted
    participants := sorted.foldl (fun ps r => addParticipant ps r.user) t.participants }

/-- Second pass of `buildThreads`: for each reply-map entry whose parent id
has a thread, attach the group; entries without a thread are dropped. -/
def secondPassAux : List (Nat × CommentThread) → List (Nat × List PRComment) →
    List (Nat × CommentThread)
  | tm, [] => tm
  | tm, (rootId, g) :: rest =>
    match mapGet tm rootId with
    | some t => secondPassAux (mapSet tm rootId (attachReplies t g)) rest
    | none => secondPassAux tm rest

/-- The final sort of `buildThreads`: ascending by line
(`.sort((a, b) => a.line - b.line)`, stable). -/
def threadLE (a b : CommentThread) : Prop := a.line ≤ b.line

instance : DecidableRel threadLE := fun a b =>
  inferInstanceAs (Decidable (a.line ≤ b.line))

instance : IsTotal CommentThread threadLE := ⟨fun _ _ => Nat.le_total _ _⟩

instance : IsTrans CommentThread threadLE := ⟨fun _ _ _ => Nat.le_trans⟩

/-- Embedding of `buildThreads(comments)`. -/
def buildThreads (cs : List PRComment) : List CommentThread :=
  let p := firstPassAux [] [] cs
  List.insertionSort threadLE ((secondPassAux p.1 p.2).map (·.2))

/-! ## Filtering and counts (views/commentTreeProvider.ts) -/

/-- Embedding of the `FilterOptions` interface. -/
structure FilterOptions where
  reviewer : Option String := none
  resolved : Option Bool := none
  file : Option String := none
  deriving Repr, DecidableEq

/-- The predicate from `filterThreads`: a truthy `reviewer` option requires
membership in `participants`; a present `resolved` option (
`!== undefined`, so `some false` counts) requires an equal `resolved` flag. -/
def threadMatchesFilter (opts : FilterOptions) (t : CommentThread) : Bool :=
  (match opts.reviewer with
   | some r => if r ≠ "" then t.participants.contains r else true
   | none => true) &&
  (match opts.resolved with
   | some b => t.resolved == b
   | none => true)

/-- Embedding of `filterThreads(threads)`. -/
def filterThreads (opts : FilterOptions) (ts : List CommentThread) : List CommentThread :=
  ts.filter (threadMatchesFilter opts)

/-- The comment count over a thread list:
`reduce((sum, t) => sum + 1 + t.replies.length, 0)` (used per file in
`getFileItems`, and accumulated across files in `getTotalCommentCount`). -/
def threadListCommentCount (ts : List CommentThread) : Nat :=
  ts.foldl (fun sum t => sum + (1 + t.replies.length)) 0

/-- `getTotalCommentCount`, over the file → threads map. -/
def getTotalCommentCount (m : List (String × List CommentThread)) : Nat :=
  m.foldl (fun count e => e.2.foldl (fun c t => c + (1 + t.replies.length)) count) 0

/-- `getThreadCount`, over the file → threads map. -/
def getThreadCount (m : List (String × List CommentThread)) : Nat :=
  m.foldl (fun count e => count + e.2.length) 0

/-! ## Branch/PR resolver (git/repository.ts) -/

/-- Case-insensitive ASCII character match (the `i` regex flag). -/
def charCI (c pat : Char) : Bool := c.toLower = pat

/-- Separator class `[_-]` used by the branch patterns. -/
def isSep (c : Char) : Bool := c = '-' || c = '_'

/-- `[_-]?`: consume one separator when present (the regex's optional
separator; backtracking cannot help since a separator is never a digit). -/
def skipOptSep (s : List Char) : List Char :=
  match s with
  | c :: t => if isSep c then t else s
  | [] => s

/-- `(\d+)` at the head: the (greedy) leading digit run, when nonempty. -/
def leadingNumber (s : List Char) : Option Nat :=
  let ds := s.takeWhile Char.isDigit
  if ds.isEmpty then none else some (digitsToNat ds)

/-- `pr[_-]?(\d+)` (case-insensitive) anchored at the head of `s`. -/
def prCore (s : List Char) : Option Nat :=
  match s with
  | p :: r :: t => if charCI p 'p' && charCI r 'r' then leadingNumber (skipOptSep t) else none
  | _ => none

/-- `pull[_-]?(\d+)` (case-insensitive) anchored at the head of `s`. -/
def pullCore (s : List Char) : Option Nat :=
  match s with
  | p :: u :: l1 :: l2 :: t =>
    if charCI p 'p' && charCI u 'u' && charCI l1 'l' && charCI l2 'l' then
      leadingNumber (skipOptSep t)
    else none
  | _ => none

/-- Pattern 3, `^(\d+)[_-]`: a leading digit run immediately followed by a
separator. -/
def branchNumPrefix (s : List Char) : Option Nat :=
  let ds := s.takeWhile Char.isDigit
  match s.dropWhile Char.isDigit with
  | c :: _ => if !ds.isEmpty && isSep c then some (digitsToNat ds) else none
  | [] => none

/-- Unanchored search `[_-]core` (patterns 4 and 5): the leftmost separator
at which the core matches, as the JS regex engine finds it. -/
def scanAfterSep (core : List Char → Option Nat) : List Char → Option Nat
  | [] => none
  | c :: rest =>
    if isSep c then
      match core rest with
      | some n => some n
      | none => scanAfterSep core rest
    else scanAfterSep core rest

/-- Embedding of `extractPRNumberFromBranch(branchName)`: the five patterns
tried in source order, first match wins
(`^pr[_-]?(\d+)/i`, `^pull[_-]?(\d+)/i`, `^(\d+)[_-]`, `[_-]pr[_-]?(\d+)/i`,
`[_-]pull[_-]?(\d+)/i`), the captured digits read by `parseInt`. -/
def extractPRNumberFromBranch (branchName : String) : Option Nat :=
  let s := branchName.data
  (((prCore s).orElse fun _ => pullCore s).orElse fun _ =>
      (branchNumPrefix s).orElse fun _ =>
        (scanAfterSep prCore s).orElse fun _ => scanAfterSep pullCore s)

/-- Result record of `parseGitRemoteUrl`. -/
structure RepoRef where
  owner : String
  repo : String
  deriving Repr, DecidableEq

/-- Strip one trailing `.git` (`.replace(/\.git$/, '')`). -/
def stripDotGit (s : List Char) : List Char :=
  if ['.', 'g', 'i', 't'].reverse.isPrefixOf s.reverse then (s.reverse.drop 4).reverse else s

/-- The lazy tail group `([^/]+?)(\.git)?$` applied to the final (slash-free,
nonempty) segment: the shortest nonempty capture, so a trailing `.git` is
taken by the optional group whenever what precedes it is nonempty. -/
def lazyRepoCapture (r : List Char) : List Char :=
  if ['.', 'g', 'i', 't'].reverse.isPrefixOf r.reverse && 4 < r.length then
    (r.reverse.drop 4).reverse
  else r

/-- Split at the first `/`: `some (before, after)` with `before` slash-free. -/
def splitAtFirstSlash (s : List Char) : Option (List Char × List Char) :=
  let pre := s.takeWhile (· ≠ '/')
  match s.drop pre.length with
  | _ :: after => some (pre, after)
  | [] => none

/-- `([^/]+)\/([^/]+?)(\.git)?$` after the matched delimiter: group 1 runs to
the next `/` and must be nonempty; the rest must be nonempty and slash-free
(it holds the lazy group 2 and the optional `.git`). -/
def ownerRepoTail (rem : List Char) : Option (List Char × List Char) :=
  match splitAtFirstSlash rem with
  | some (o, r) =>
    if !o.isEmpty && !r.isEmpty && r.all (· ≠ '/') then some (o, lazyRepoCapture r) else none
  | none => none

/-- The `[:/]` delimiter alternatives of pattern 1 with `:` as delimiter:
candidates are tried exactly in the regex engine's backtracking order, i.e.
rightmost `:` inside the greedy `[^/]*` run first. `aRev` is the reversed
not-yet-committed part of that run, `suffix` what follows the candidate
position. -/
def tryColonSplits (aRev suffix : List Char) : Option (List Char × List Char) :=
  match aRev with
  | [] => none
  | c :: aRev' =>
    if c = ':' then
      match ownerRepoTail suffix with
      | some res => some res
      | none => tryColonSplits aRev' (c :: suffix)
    else tryColonSplits aRev' (c :: suffix)

/-- Pattern 1 after a `github` occurrence: `[^/]*[:/]([^/]+)\/([^/]+?)(\.git)?$`
on the remaining text `t`. The greedy `[^/]*` first puts the delimiter at the
first `/` of `t`, then backtracks through the `:` positions right to left. -/
def pat1AfterGithub (t : List Char) : Option (List Char × List Char) :=
  let a := t.takeWhile (· ≠ '/')
  let firstTry :=
    match t.drop a.length with
    | _ :: rem => ownerRepoTail rem
    | [] => none
  match firstTry with
  | some res => some res
  | none => tryColonSplits a.reverse (t.drop a.length)

/-- Literal `github`, case-insensitively, at the head of `s`. -/
def githubAtHead (s : List Char) : Bool :=
  match s with
  | g :: i :: t1 :: h :: u :: b :: _ =>
    charCI g 'g' && charCI i 'i' && charCI t1 't' && charCI h 'h' && charCI u 'u' && charCI b 'b'
  | _ => false

/-- Leftmost-match search for pattern 1,
`/github[^/]*[:/]([^/]+)\/([^/]+?)(\.git)?$/i`: try every position left to
right as the JS engine does. -/
def findPat1 : List Char → Option (List Char × List Char)
  | [] => none
  | s@(_ :: rest) =>
    if githubAtHead s then
      match pat1AfterGithub (s.drop 6) with
      | some res => some res
      | none => findPat1 rest
    else findPat1 rest

/-- Pattern 2, `/^([^/]+)\/([^/]+)$/`: exactly one slash, both sides
nonempty. -/
def pat2 (s : List Char) : Option (List Char × List Char) :=
  match splitAtFirstSlash s with
  | some (o, r) => if !o.isEmpty && !r.isEmpty && r.all (· ≠ '/') then some (o, r) else none
  | none => none

/-- Embedding of `parseGitRemoteUrl(remoteUrl)`: pattern 1 (GitHub-ish URL)
then pattern 2 (bare `owner/repo`), the matched repository group getting a
single trailing `.git` stripped. -/
def parseGitRemoteUrl (remoteUrl : String) : Option RepoRef :=
  match findPat1 remoteUrl.data with
  | some (o, r) => some ⟨o.asString, (stripDotGit r).asString⟩
  | none =>
    match pat2 remoteUrl.data with
    | some (o, r) => some ⟨o.asString, (stripDotGit r).asString⟩
    | none => none

/-! ## Helper lemmas: retry delay -/

theorem calculateRetryDelay_none (a : Nat) : calculateRetryDelay a none = 1000 * 2 ^ a := by
  simp [calculateRetryDelay, INITIAL_RETRY_DELAY_MS]

theorem jsParseInt_empty : jsParseInt "" = none := by decide

theorem calculateRetryDelay_hint (a : Nat) (h : String) (n : Int)
    (hp : jsParseInt h = some n) : calculateRetryDelay a (some h) = n * 1000 := by
  have hne : h ≠ "" := by
    intro he
    rw [he, jsParseInt_empty] at hp
    exact Option.noConfusion hp
  simp [calculateRetryDelay, hne, hp]

theorem calculateRetryDelay_nan (a : Nat) (h : String)
    (hp : jsParseInt h = none) : calculateRetryDelay a (some h) = 1000 * 2 ^ a := by
  by_cases hne : h = ""
  · simp [calculateRetryDelay, hne, INITIAL_RETRY_DELAY_MS]
  · simp [calculateRetryDelay, hne, hp, INITIAL_RETRY_DELAY_MS]

/-- C1, counterexample: the retry-after hint `"-5"` parses (as JS `parseInt`
does) to the negative integer `-5`, so it does not parse as a non-negative
integer; the claim then requires exponential backoff (1000ms at attempt 0),
but the code computes `-5 * 1000 = -5000` ms. -/
theorem calcRetryDelay_negative_hint_cex :
    jsParseInt "-5" = some (-5) ∧ ((-5 : Int) < 0) ∧
    calculateRetryDelay 0 (some "-5") = -5000 ∧ ((-5000 : Int) ≠ 1000 * 2 ^ (0 : Nat)) := by
  decide

/-- C1, amended: with no hint the delay is `1000 * 2 ^ attempt` ms (1s, 2s,
4s for attempts 0, 1, 2); whenever the hint parses under JS `parseInt` to any
integer n — non-negative or not — the delay is `n * 1000` ms regardless of
attempt (so hint `"60"` always gives 60000ms); exponential backoff is used
only when the hint is absent, empty, or parses to `NaN`. -/
theorem calcRetryDelay_spec :
    (∀ a : Nat, calculateRetryDelay a none = 1000 * 2 ^ a) ∧
    calculateRetryDelay 0 none = 1000 ∧
    calculateRetryDelay 1 none = 2000 ∧
    calculateRetryDelay 2 none = 4000 ∧
    (∀ (a : Nat) (h : String) (n : Int), jsParseInt h = some n →
      calculateRetryDelay a (some h) = n * 1000) ∧
    (∀ (a : Nat) (h : String), jsParseInt h = none →
      calculateRetryDelay a (some h) = 1000 * 2 ^ a) ∧
    (∀ a : Nat, calculateRetryDelay a (some "60") = 60000) :=
  ⟨calculateRetryDelay_none, by decide, by decide, by decide,
   calculateRetryDelay_hint, calculateRetryDelay_nan,
   fun a => calculateRetryDelay_hint a "60" 60 (by decide)⟩

/-- C1, witness: the amended theorem applied at attempt 7 with hint `"60"`. -/
theorem calcRetryDelay_spec_witness : calculateRetryDelay 7 (some "60") = 60 * 1000 :=
  calcRetryDelay_spec.2.2.2.2.1 7 "60" 60 (by decide)

/-! ## Helper lemmas: branch-number pattern 3 -/

theorem branchNumPrefix_shape (s : List Char) (n : Nat) (h : branchNumPrefix s = some n) :
    ∃ ds c rest, s = ds ++ c :: rest ∧ ds ≠ [] ∧ (∀ d ∈ ds, d.isDigit) ∧
      (c = '-' ∨ c = '_') ∧ n = digitsToNat ds := by
  cases hdrop : s.dropWhile Char.isDigit with
  | nil =>
    simp only [branchNumPrefix, hdrop] at h
    exact Option.noConfusion h
  | cons c rest =>
    simp only [branchNumPrefix, hdrop] at h
    by_cases hc : (!(s.takeWhile Char.isDigit).isEmpty && isSep c) = true
    · refine ⟨s.takeWhile Char.isDigit, c, rest, ?_, ?_, ?_, ?_, ?_⟩
      · rw [← hdrop]; exact (List.takeWhile_append_dropWhile Char.isDigit s).symm
      · have h1 := ((Bool.and_eq_true _ _).mp hc).1
        simpa [List.isEmpty_iff] using h1
      · exact fun d hd => List.mem_takeWhile_imp hd
      · have h2 := ((Bool.and_eq_true _ _).mp hc).2
        simpa [isSep, or_comm] using h2
      · rw [if_pos hc] at h
        exact (Option.some_inj.mp h).symm
    · rw [if_neg hc] at h
      exact Option.noConfusion h

/-- C7: the branch-name PR extractor returns the listed result on each listed
input, and in general pattern 3 (`^(\d+)[_-]`) matches only when the digit
run sits at the very start of the branch name and is immediately followed by
a `-`/`_` separator — so a digit run elsewhere, or one not followed by a
separator, never matches it. -/
theorem extractPRNumber_examples :
    extractPRNumberFromBranch "pr-123" = some 123 ∧
    extractPRNumberFromBranch "PR-123" = some 123 ∧
    extractPRNumberFromBranch "pull_456" = some 456 ∧
    extractPRNumberFromBranch "789-feature-name" = some 789 ∧
    extractPRNumberFromBranch "feature-pr-42" = some 42 ∧
    extractPRNumberFromBranch "main" = none ∧
    extractPRNumberFromBranch "node-20-upgrade" = none ∧
    (∀ (s : List Char) (n : Nat), branchNumPrefix s = some n →
      ∃ ds c rest, s = ds ++ c :: rest ∧ ds ≠ [] ∧ (∀ d ∈ ds, d.isDigit) ∧
        (c = '-' ∨ c = '_') ∧ n = digitsToNat ds) :=
  ⟨by decide, by decide, by decide, by decide, by decide, by decide, by decide,
   branchNumPrefix_shape⟩

/-- C7, witness: the general pattern-3 part applied at the concrete branch
text `7-x`, where pattern 3 matches with capture 7. -/
theorem extractPRNumber_examples_witness :
    ∃ ds c rest, ('7' :: '-' :: 'x' :: []) = ds ++ c :: rest ∧ ds ≠ [] ∧
      (∀ d ∈ ds, d.isDigit) ∧ (c = '-' ∨ c = '_') ∧ 7 = digitsToNat ds :=
  extractPRNumber_examples.2.2.2.2.2.2.2 ('7' :: '-' :: 'x' :: []) 7 (by decide)

/-! ## Helper lemmas: `.git` stripping -/

theorem stripDotGit_append (x : List Char) : stripDotGit (x ++ (".git").data) = x := by
  have hdata : (".git").data = ['.', 'g', 'i', 't'] := rfl
  rw [hdata]
  unfold stripDotGit
  rw [List.reverse_append x ['.', 'g', 'i', 't']]
  have hpre : (['.', 'g', 'i', 't'].reverse).isPrefixOf
      (['.', 'g', 'i', 't'].reverse ++ x.reverse) = true := by
    rw [List.isPrefixOf_iff_prefix]
    exact List.prefix_append _ _
  rw [if_pos hpre]
  have hl : (['.', 'g', 'i', 't'].reverse) = ['t', 'i', 'g', '.'] := rfl
  rw [hl]
  have hrev : (['t', 'i', 'g', '.'] ++ x.reverse).drop 4 = x.reverse :=
    List.drop_left ['t', 'i', 'g', '.'] x.reverse
  rw [hrev, List.reverse_reverse]

/-- C8, counterexample: the remote-URL parser is GitHub-specific, not
host-agnostic. On `git@host.com:owner/repo.git` the hosting pattern (which
requires a literal `github` token) does not match, the bare `owner/repo`
fallback does, and the result has owner `git@host.com:owner` — not the
claimed `owner`; moreover `https://host.com/owner/repo` yields no match
rather than the claimed owner/repo pair. -/
theorem parseGitRemoteUrl_host_cex :
    parseGitRemoteUrl "git@host.com:owner/repo.git" =
      some { owner := "git@host.com:owner", repo := "repo" } ∧
    parseGitRemoteUrl "git@host.com:owner/repo.git" ≠ some { owner := "owner", repo := "repo" } ∧
    parseGitRemoteUrl "https://host.com/owner/repo" = none := by
  decide

/-- C8, amended: the listed results hold for `github.com` hosts (the hosting
pattern requires a literal `github` token): the SSH form
`git@github.com:owner/repo.git` and the HTTPS form
`https://github.com/owner/repo` both yield owner/repo, and `not-a-url` yields
no match. For a generic host the SSH form falls through to the bare
`owner/repo` pattern (owner `git@host.com:owner`) and the HTTPS form yields
no match. A single trailing `.git` is stripped from the matched repository
group: via the hosting pattern's optional group, via the fallback's
`.replace` (`owner/repo.git` ↦ `repo`), and `stripDotGit` removes exactly one
trailing `.git` from any character list. -/
theorem parseGitRemoteUrl_spec :
    parseGitRemoteUrl "git@github.com:owner/repo.git" = some { owner := "owner", repo := "repo" } ∧
    parseGitRemoteUrl "https://github.com/owner/repo" = some { owner := "owner", repo := "repo" } ∧
    parseGitRemoteUrl "not-a-url" = none ∧
    parseGitRemoteUrl "git@host.com:owner/repo.git" =
      some { owner := "git@host.com:owner", repo := "repo" } ∧
    parseGitRemoteUrl "https://host.com/owner/repo" = none ∧
    parseGitRemoteUrl "owner/repo.git" = some { owner := "owner", repo := "repo" } ∧
    parseGitRemoteUrl "https://github.com/owner/repo.git" =
      some { owner := "owner", repo := "repo" } ∧
    (∀ x : List Char, stripDotGit (x ++ (".git").data) = x) :=
  ⟨by decide, by decide, by decide, by decide, by decide, by decide, by decide,
   stripDotGit_append⟩

/-- C8, witness: the universal `.git`-stripping part of the amended theorem
applied at the concrete repository name `r`. -/
theorem parseGitRemoteUrl_spec_witness : stripDotGit (['r'] ++ (".git").data) = ['r'] :=
  parseGitRemoteUrl_spec.2.2.2.2.2.2.2 ['r']

/-- C9: comment and thread counts over the filtered view: when the active
filter matches every thread, `filterThreads` returns the whole collection and
both counts are unchanged; when it matches no thread, the filtered view is
empty and both counts are zero. -/
theorem filteredCounts_spec (opts : FilterOptions) (ts : List CommentThread) :
    ((∀ t ∈ ts, threadMatchesFilter opts t = true) →
      threadListCommentCount (filterThreads opts ts) = threadListCommentCount ts ∧
      (filterThreads opts ts).length = ts.length) ∧
    ((∀ t ∈ ts, threadMatchesFilter opts t = false) →
      threadListCommentCount (filterThreads opts ts) = 0 ∧
      (filterThreads opts ts).length = 0) := by
  constructor
  · intro hall
    have hfix : filterThreads opts ts = ts := List.filter_eq_self.mpr hall
    rw [hfix]
    exact ⟨rfl, rfl⟩
  · intro hnone
    have hnil : filterThreads opts ts = [] := by
      refine List.filter_eq_nil_iff.mpr ?_
      intro t ht
      simp [hnone t ht]
    rw [hnil]
    exact ⟨rfl, rfl⟩

/-- A concrete thread used to instantiate witnesses. -/
def witThread : CommentThread :=
  { id := 1
    path := "f"
    line := 10
    rootComment := { path := "f", line := 10, body := "x", user := "a", id := 1 }
    replies := []
    resolved := false
    participants := ["a"] }

/-- C9, witness: with an empty filter (which matches everything) over a
one-thread collection, both counts are unchanged. -/
theorem filteredCounts_spec_witness :
    threadListCommentCount (filterThreads {} [witThread]) = threadListCommentCount [witThread] ∧
    (filterThreads {} [witThread]).length = [witThread].length :=
  (filteredCounts_spec {} [witThread]).1 (by decide)

/-! ## Helper lemmas: token validation failure -/

theorem validateToken_fail (a : String)
    (h : jsTrim a = "" ∨
      ((tokenPrefixes.any fun p => p.data.isPrefixOf a.data) = false ∧ a.length < 20)) :
    (validateToken a).valid = false := by
  by_cases h1 : (a = "" || jsTrim a = "") = true
  · simp [validateToken, h1]
  · rcases h with h | ⟨hp, hl⟩
    · exact absurd (by simp [h]) h1
    · have h2 : ((!tokenPrefixes.any fun p => p.data.isPrefixOf a.data) &&
          decide (a.length < 20)) = true := by simp [hp, hl]
      simp [validateToken, h1, h2]

theorem validateToken_invalid_msg (a : String) (h : (validateToken a).valid = false) :
    (validateToken a).message.isSome = true := by
  by_cases h1 : (a = "" || jsTrim a = "") = true
  · simp [validateToken, h1]
  · by_cases h2 : ((!tokenPrefixes.any fun p => p.data.isPrefixOf a.data) &&
        decide (a.length < 20)) = true
    · simp [validateToken, h1, h2]
    · exfalso
      simp [validateToken, h1, h2] at h

/-- C3: when the effective credential (the `token` argument if truthy,
otherwise the configured token) is absent (empty), is all-whitespace, or has
no recognised provider prefix and fewer than 20 characters, the fetch returns
`success = false` with an error message present, performing no listing call
and no sleep. -/
theorem fetch_invalid_credential (cfg : String) (env : Nat → AttemptOutcome)
    (owner repo : String) (pr : Nat) (token : Option String)
    (h : jsOrStr token cfg = "" ∨ jsTrim (jsOrStr token cfg) = "" ∨
      ((tokenPrefixes.any fun p => p.data.isPrefixOf (jsOrStr token cfg).data) = false ∧
        (jsOrStr token cfg).length < 20)) :
    (fetchPRCommentsWithRetry cfg env owner repo pr token).result.success = false ∧
    (fetchPRCommentsWithRetry cfg env owner repo pr token).result.error.isSome = true ∧
    (fetchPRCommentsWithRetry cfg env owner repo pr token).calls = 0 ∧
    (fetchPRCommentsWithRetry cfg env owner repo pr token).sleeps = [] := by
  by_cases ha : jsOrStr token cfg = ""
  · simp [fetchPRCommentsWithRetry, ha]
  · have hv : (validateToken (jsOrStr token cfg)).valid = false := by
      rcases h with h | h | h
      · exact absurd h ha
      · exact validateToken_fail _ (Or.inl h)
      · exact validateToken_fail _ (Or.inr h)
    have hm := validateToken_invalid_msg _ hv
    simp [fetchPRCommentsWithRetry, ha, hv, hm]

/-- C3, witness: the theorem applied to the concrete unprefixed short
credential `abc` (no provider prefix, length 3 < 20): no call is made. -/
theorem fetch_invalid_credential_witness :
    (fetchPRCommentsWithRetry "abc" (fun _ => .err {gh := true}) "o" "r" 5 none).result.success
        = false ∧
    (fetchPRCommentsWithRetry "abc" (fun _ => .err {gh := true}) "o" "r" 5 none).result.error.isSome
        = true ∧
    (fetchPRCommentsWithRetry "abc" (fun _ => .err {gh := true}) "o" "r" 5 none).calls = 0 ∧
    (fetchPRCommentsWithRetry "abc" (fun _ => .err {gh := true}) "o" "r" 5 none).sleeps = [] :=
  fetch_invalid_credential "abc" (fun _ => .err {gh := true}) "o" "r" 5 none
    (Or.inr (Or.inr (by decide)))

/-! ## Helper lemmas: the retry loop -/

/-- An error that the loop classifies as retryable (neither a 401 nor a 404
GitHub error): the loop sleeps (except on the last attempt for the generic
branch) and moves on to the next attempt. -/
def retryableErr (e : GHErrorInfo) : Prop :=
  ¬(e.gh = true ∧ e.status = some 401) ∧ ¬(e.gh = true ∧ e.status = some 404)

/-- An attempt outcome that makes the loop continue to the next attempt. -/
def retryableOutcome (o : AttemptOutcome) : Prop :=
  match o with
  | .ok .. => False
  | .err e => retryableErr e

theorem retryable_destruct (o : AttemptOutcome) (h : retryableOutcome o) :
    ∃ e, o = .err e ∧ retryableErr e := by
  cases o with
  | ok a b c => exact absurd h (by simp [retryableOutcome])
  | err e => exact ⟨e, rfl, h⟩

theorem fetchLoop_401 (env : Nat → AttemptOutcome) (owner repo : String) (pr : Nat)
    (attempt rem : Nat) (le : Option String) (e : GHErrorInfo)
    (he : env attempt = .err e) (hgh : e.gh = true) (hst : e.status = some 401) :
    fetchLoop env owner repo pr attempt (rem + 1) le =
      ⟨{ success := false, comments := []
         error := some "Authentication failed. Please check your GitHub token." }, 1, []⟩ := by
  simp [fetchLoop, he, hgh, hst]

theorem fetchLoop_404 (env : Nat → AttemptOutcome) (owner repo : String) (pr : Nat)
    (attempt rem : Nat) (le : Option String) (e : GHErrorInfo)
    (he : env attempt = .err e) (hgh : e.gh = true) (hst : e.status = some 404) :
    fetchLoop env owner repo pr attempt (rem + 1) le =
      ⟨{ success := false, comments := []
         error := some (notFoundMsg owner repo pr) }, 1, []⟩ := by
  simp [fetchLoop, he, hgh, hst]

theorem fetchLoop_retry_step (env : Nat → AttemptOutcome) (owner repo : String) (pr : Nat)
    (attempt rem : Nat) (le : Option String) (e : GHErrorInfo)
    (he : env attempt = .err e) (hr : retryableErr e) (hlt : attempt < MAX_RETRIES - 1) :
    ∃ d, fetchLoop env owner repo pr attempt (rem + 1) le =
      ⟨(fetchLoop env owner repo pr (attempt + 1) rem (some e.message)).result,
       (fetchLoop env owner repo pr (attempt + 1) rem (some e.message)).calls + 1,
       d :: (fetchLoop env owner repo pr (attempt + 1) rem (some e.message)).sleeps⟩ := by
  have h401 : (e.gh && e.status == some 401) = false := by
    by_contra hc
    rw [Bool.not_eq_false, Bool.and_eq_true, beq_iff_eq] at hc
    exact hr.1 hc
  have h404 : (e.gh && e.status == some 404) = false := by
    by_contra hc
    rw [Bool.not_eq_false, Bool.and_eq_true, beq_iff_eq] at hc
    exact hr.2 hc
  by_cases hrl : (e.gh && (e.status == some 403 || e.status == some 429)) = true
  · exact ⟨calculateRetryDelay attempt e.retryAfter, by simp [fetchLoop, he, h401, h404, hrl]⟩
  · by_cases h5 : (e.gh && optNatTruthy e.status && decide (500 ≤ e.status.getD 0)) = true
    · exact ⟨calculateRetryDelay attempt none, by simp [fetchLoop, he, h401, h404, hrl, h5]⟩
    · exact ⟨calculateRetryDelay attempt none,
        by simp [fetchLoop, he, h401, h404, hrl, h5, hlt]⟩

theorem fetchLoop_reach_terminal (env : Nat → AttemptOutcome) (owner repo : String) (pr : Nat)
    (k : Nat) (hk : k < 3) (hprev : ∀ j, j < k → retryableOutcome (env j)) (res : FetchResult)
    (hterm : ∀ rem le, fetchLoop env owner repo pr k (rem + 1) le = ⟨res, 1, []⟩) :
    ∃ ds : List Int, ds.length = k ∧
      fetchLoop env owner repo pr 0 3 none = ⟨res, k + 1, ds⟩ := by
  interval_cases k
  · exact ⟨[], rfl, hterm 2 none⟩
  · obtain ⟨e0, he0, hr0⟩ := retryable_destruct _ (hprev 0 (by norm_num))
    obtain ⟨d0, hstep0⟩ := fetchLoop_retry_step env owner repo pr 0 2 none e0 he0 hr0 (by decide)
    refine ⟨[d0], rfl, ?_⟩
    rw [show (3 : Nat) = 2 + 1 from rfl, hstep0, hterm 1 (some e0.message)]
  · obtain ⟨e0, he0, hr0⟩ := retryable_destruct _ (hprev 0 (by norm_num))
    obtain ⟨e1, he1, hr1⟩ := retryable_destruct _ (hprev 1 (by norm_num))
    obtain ⟨d0, hstep0⟩ := fetchLoop_retry_step env owner repo pr 0 2 none e0 he0 hr0 (by decide)
    obtain ⟨d1, hstep1⟩ :=
      fetchLoop_retry_step env owner repo pr 1 1 (some e0.message) e1 he1 hr1 (by decide)
    refine ⟨[d0, d1], rfl, ?_⟩
    rw [show (3 : Nat) = 2 + 1 from rfl, hstep0, show (2 : Nat) = 1 + 1 from rfl, hstep1,
      hterm 0 (some e1.message)]

theorem strContains_of_parts (pre mid post : String) :
    strContains (pre ++ mid ++ post) mid := by
  unfold strContains
  refine ⟨pre.data, post.data, ?_⟩
  simp

theorem notFoundMsg_parts (owner repo : String) (pr : Nat) :
    strContains (notFoundMsg owner repo pr) (toString pr) ∧
    strContains (notFoundMsg owner repo pr) repo := by
  constructor
  · have h : notFoundMsg owner repo pr = "PR #" ++ toString pr ++
        (" not found in " ++ owner ++ "/" ++ repo ++ ". Check the PR number and repository.") := by
      simp [notFoundMsg, String.append_assoc]
    rw [h]
    exact strContains_of_parts _ _ _
  · have h : notFoundMsg owner repo pr =
        ("PR #" ++ toString pr ++ " not found in " ++ owner ++ "/") ++ repo ++
          ". Check the PR number and repository." := by
      simp [notFoundMsg, String.append_assoc]
    rw [h]
    exact strContains_of_parts _ _ _

/-- C2: on any fetch invocation that passes the credential precondition, if
the attempts before attempt `k` all failed retryably and attempt `k` throws a
401-classified GitHub error, the fetch returns `success = false` right there:
exactly `k + 1` listing calls, the auth-failure message, and no sleep beyond
the one sleep of each of the `k` earlier retried attempts; if attempt `k`
throws a 404-classified error it likewise stops with `k + 1` calls and an
error message that contains the decimal PR number and the repository name. -/
theorem fetch_terminal_401_404 (cfg : String) (env : Nat → AttemptOutcome)
    (owner repo : String) (pr : Nat) (token : Option String)
    (hne : jsOrStr token cfg ≠ "")
    (hv : (validateToken (jsOrStr token cfg)).valid = true)
    (k : Nat) (hk : k < MAX_RETRIES)
    (hprev : ∀ j, j < k → retryableOutcome (env j)) (e : GHErrorInfo)
    (he : env k = .err e) (hgh : e.gh = true) :
    (e.status = some 401 →
      (fetchPRCommentsWithRetry cfg env owner repo pr token).result.success = false ∧
      (fetchPRCommentsWithRetry cfg env owner repo pr token).result.error =
        some "Authentication failed. Please check your GitHub token." ∧
      (fetchPRCommentsWithRetry cfg env owner repo pr token).calls = k + 1 ∧
      (fetchPRCommentsWithRetry cfg env owner repo pr token).sleeps.length = k) ∧
    (e.status = some 404 →
      (fetchPRCommentsWithRetry cfg env owner repo pr token).result.success = false ∧
      (fetchPRCommentsWithRetry cfg env owner repo pr token).result.error =
        some (notFoundMsg owner repo pr) ∧
      strContains (notFoundMsg owner repo pr) (toString pr) ∧
      strContains (notFoundMsg owner repo pr) repo ∧
      (fetchPRCommentsWithRetry cfg env owner repo pr token).calls = k + 1 ∧
      (fetchPRCommentsWithRetry cfg env owner repo pr token).sleeps.length = k) := by
  have hrun : fetchPRCommentsWithRetry cfg env owner repo pr token =
      fetchLoop env owner repo pr 0 MAX_RETRIES none := by
    simp [fetchPRCommentsWithRetry, hne, hv]
  constructor
  · intro hst
    obtain ⟨ds, hlen, hloop⟩ := fetchLoop_reach_terminal env owner repo pr k hk hprev _
      (fun rem le => fetchLoop_401 env owner repo pr k rem le e he hgh hst)
    rw [hrun, show MAX_RETRIES = 3 from rfl, hloop]
    exact ⟨rfl, rfl, rfl, hlen⟩
  · intro hst
    obtain ⟨ds, hlen, hloop⟩ := fetchLoop_reach_terminal env owner repo pr k hk hprev _
      (fun rem le => fetchLoop_404 env owner repo pr k rem le e he hgh hst)
    have hmsg := notFoundMsg_parts owner repo pr
    rw [hrun, show MAX_RETRIES = 3 from rfl, hloop]
    exact ⟨rfl, rfl, hmsg.1, hmsg.2, rfl, hlen⟩

/-- An environment whose every attempt throws a 401 GitHub error. -/
def envAuthFail : Nat → AttemptOutcome := fun _ => .err { gh := true, status := some 401 }

/-- C2, witness: under `envAuthFail` the very first attempt is terminal —
one call, no sleep, the auth-failure message. -/
theorem fetch_terminal_401_404_witness :
    (fetchPRCommentsWithRetry "ghp_tok" envAuthFail "octo" "repo" 5 none).result.success = false ∧
    (fetchPRCommentsWithRetry "ghp_tok" envAuthFail "octo" "repo" 5 none).result.error =
      some "Authentication failed. Please check your GitHub token." ∧
    (fetchPRCommentsWithRetry "ghp_tok" envAuthFail "octo" "repo" 5 none).calls = 0 + 1 ∧
    (fetchPRCommentsWithRetry "ghp_tok" envAuthFail "octo" "repo" 5 none).sleeps.length = 0 :=
  (fetch_terminal_401_404 "ghp_tok" envAuthFail "octo" "repo" 5 none (by decide) (by decide)
    0 (by decide) (fun j hj => absurd hj (Nat.not_lt_zero j))
    { gh := true, status := some 401 } rfl rfl).1 rfl


/-! ## Helper lemmas: the JS `Map` model -/

theorem mapKeys_nil {β : Type} : mapKeys ([] : List (Nat × β)) = [] := rfl

theorem mapKeys_cons {β : Type} (kv : Nat × β) (m : List (Nat × β)) :
    mapKeys (kv :: m) = kv.1 :: mapKeys m := rfl

theorem mapSet_nil {β : Type} (k : Nat) (v : β) : mapSet [] k v = [(k, v)] := rfl

theorem mapSet_cons {β : Type} (k' : Nat) (v' : β) (m : List (Nat × β)) (k : Nat) (v : β) :
    mapSet ((k', v') :: m) k v =
      if k' = k then (k', v) :: m else (k', v') :: mapSet m k v := rfl

theorem mapGet_nil {β : Type} (k : Nat) : mapGet ([] : List (Nat × β)) k = none := rfl

theorem mapGet_cons {β : Type} (k' : Nat) (v' : β) (m : List (Nat × β)) (k : Nat) :
    mapGet ((k', v') :: m) k = if k' = k then some v' else mapGet m k := rfl

theorem mapGet_mapSet {β : Type} (m : List (Nat × β)) (k : Nat) (v : β) (q : Nat) :
    mapGet (mapSet m k v) q = if k = q then some v else mapGet m q := by
  induction m with
  | nil =>
    rw [mapSet_nil, mapGet_cons, mapGet_nil]
  | cons kv rest ih =>
    obtain ⟨k', v'⟩ := kv
    rw [mapSet_cons]
    by_cases h1 : k' = k
    · rw [if_pos h1, mapGet_cons, mapGet_cons, h1]
      by_cases h2 : k = q
      · rw [if_pos h2, if_pos h2]
      · rw [if_neg h2, if_neg h2, if_neg h2]
    · rw [if_neg h1, mapGet_cons, mapGet_cons, ih]
      by_cases h2 : k' = q
      · have hkq : ¬ k = q := fun hh => h1 (h2.trans hh.symm)
        rw [if_pos h2, if_pos h2, if_neg hkq]
      · rw [if_neg h2, if_neg h2]

theorem mapKeys_mapSet_of_mem {β : Type} (m : List (Nat × β)) (k : Nat) (v : β)
    (h : k ∈ mapKeys m) : mapKeys (mapSet m k v) = mapKeys m := by
  induction m with
  | nil => exact absurd h (by rw [mapKeys_nil]; exact List.not_mem_nil k)
  | cons kv rest ih =>
    obtain ⟨k', v'⟩ := kv
    rw [mapSet_cons]
    by_cases h1 : k' = k
    · rw [if_pos h1, mapKeys_cons, mapKeys_cons]
    · rw [if_neg h1, mapKeys_cons, mapKeys_cons, ih]
      rcases List.mem_cons.mp (by rw [mapKeys_cons] at h; exact h) with h2 | h2
      · exact absurd h2.symm h1
      · exact h2

theorem mapKeys_mapSet_of_not_mem {β : Type} (m : List (Nat × β)) (k : Nat) (v : β)
    (h : k ∉ mapKeys m) : mapKeys (mapSet m k v) = mapKeys m ++ [k] := by
  induction m with
  | nil => rw [mapSet_nil, mapKeys_cons, mapKeys_nil]; rfl
  | cons kv rest ih =>
    obtain ⟨k', v'⟩ := kv
    rw [mapKeys_cons] at h
    have h1 : k' ≠ k := fun hh => h (hh ▸ List.mem_cons_self k' (mapKeys rest))
    have h2 : k ∉ mapKeys rest := fun hh => h (List.mem_cons_of_mem _ hh)
    rw [mapSet_cons, if_neg h1, mapKeys_cons, mapKeys_cons, ih h2, List.cons_append]

theorem mem_mapKeys_mapSet {β : Type} (m : List (Nat × β)) (k : Nat) (v : β) (q : Nat) :
    q ∈ mapKeys (mapSet m k v) ↔ q ∈ mapKeys m ∨ q = k := by
  by_cases h : k ∈ mapKeys m
  · rw [mapKeys_mapSet_of_mem m k v h]
    constructor
    · exact Or.inl
    · rintro (hq | hq)
      · exact hq
      · exact hq ▸ h
  · rw [mapKeys_mapSet_of_not_mem m k v h]
    simp

theorem mapKeys_nodup_mapSet {β : Type} (m : List (Nat × β)) (k : Nat) (v : β)
    (h : (mapKeys m).Nodup) : (mapKeys (mapSet m k v)).Nodup := by
  by_cases hm : k ∈ mapKeys m
  · rw [mapKeys_mapSet_of_mem m k v hm]; exact h
  · rw [mapKeys_mapSet_of_not_mem m k v hm]
    simpa [List.nodup_append] using ⟨h, hm⟩

theorem mapGet_eq_none_iff {β : Type} (m : List (Nat × β)) (k : Nat) :
    mapGet m k = none ↔ k ∉ mapKeys m := by
  induction m with
  | nil => simp [mapGet_nil, mapKeys_nil]
  | cons kv rest ih =>
    obtain ⟨k', v'⟩ := kv
    rw [mapGet_cons, mapKeys_cons]
    by_cases h : k' = k
    · simp [h]
    · rw [if_neg h, List.mem_cons]
      simp only [ih]
      constructor
      · intro hn
        rintro (hq | hq)
        · exact h hq.symm
        · exact hn hq
      · intro hn
        exact fun hq => hn (Or.inr hq)

theorem mapGet_mem {β : Type} (m : List (Nat × β)) (k : Nat) (v : β)
    (h : mapGet m k = some v) : (k, v) ∈ m := by
  induction m with
  | nil => rw [mapGet_nil] at h; exact Option.noConfusion h
  | cons kv rest ih =>
    obtain ⟨k', v'⟩ := kv
    rw [mapGet_cons] at h
    by_cases h1 : k' = k
    · rw [if_pos h1] at h
      have hv : v' = v := Option.some_inj.mp h
      rw [← h1, ← hv]
      exact List.mem_cons_self _ _
    · rw [if_neg h1] at h
      exact List.mem_cons_of_mem _ (ih h)

theorem mapGet_of_mem_nodup {β : Type} (m : List (Nat × β)) (k : Nat) (v : β)
    (hnd : (mapKeys m).Nodup) (h : (k, v) ∈ m) : mapGet m k = some v := by
  induction m with
  | nil => exact absurd h (List.not_mem_nil _)
  | cons kv rest ih =>
    obtain ⟨k', v'⟩ := kv
    rw [mapKeys_cons, List.nodup_cons] at hnd
    rw [mapGet_cons]
    rcases List.mem_cons.mp h with h1 | h1
    · have hk : k' = k := (congrArg Prod.fst h1).symm
      have hv : v' = v := (congrArg Prod.snd h1).symm
      rw [if_pos hk, hv]
    · have hk' : k' ≠ k := by
        intro hh
        subst hh
        exact hnd.1 (by simpa [mapKeys] using List.mem_map_of_mem (·.1) h1)
      rw [if_neg hk']
      exact ih hnd.2 h1

theorem mem_mapSet_weak {β : Type} (m : List (Nat × β)) (k : Nat) (v : β) (kv : Nat × β)
    (h : kv ∈ mapSet m k v) : kv = (k, v) ∨ kv ∈ m := by
  induction m with
  | nil =>
    rw [mapSet_nil] at h
    rcases List.mem_cons.mp h with h1 | h1
    · exact Or.inl h1
    · exact absurd h1 (List.not_mem_nil kv)
  | cons kv' rest ih =>
    obtain ⟨k', v'⟩ := kv'
    rw [mapSet_cons] at h
    by_cases h1 : k' = k
    · rw [if_pos h1] at h
      rcases List.mem_cons.mp h with h2 | h2
      · exact Or.inl (h1 ▸ h2)
      · exact Or.inr (List.mem_cons_of_mem _ h2)
    · rw [if_neg h1] at h
      rcases List.mem_cons.mp h with h2 | h2
      · exact Or.inr (h2 ▸ List.mem_cons_self _ _)
      · rcases ih h2 with h3 | h3
        · exact Or.inl h3
        · exact Or.inr (List.mem_cons_of_mem _ h3)

theorem mem_mapSet_nodup {β : Type} (m : List (Nat × β)) (k : Nat) (v : β) (kv : Nat × β)
    (hnd : (mapKeys m).Nodup) (h : kv ∈ mapSet m k v) :
    kv = (k, v) ∨ (kv ∈ m ∧ kv.1 ≠ k) := by
  rcases mem_mapSet_weak m k v kv h with h1 | h1
  · exact Or.inl h1
  · by_cases h2 : kv.1 = k
    · left
      obtain ⟨q, w⟩ := kv
      have hq : q = k := h2
      subst hq
      have hget : mapGet m q = some w := mapGet_of_mem_nodup m q w hnd h1
      have hget2 : mapGet (mapSet m q v) q = some v := by
        rw [mapGet_mapSet, if_pos rfl]
      have hget3 : mapGet (mapSet m q v) q = some w :=
        mapGet_of_mem_nodup (mapSet m q v) q w (mapKeys_nodup_mapSet m q v hnd) h
      rw [hget2] at hget3
      rw [Option.some_inj.mp hget3]
    · exact Or.inr ⟨h1, h2⟩

/-! ## Thread-builder invariants -/

/-- The code's root test: `inReplyToId` is falsy (absent or zero). -/
def isRootComment (c : PRComment) : Bool := !optNatTruthy c.inReplyToId

/-- Ids of the comments the first pass turns into threads. -/
def rootIds (cs : List PRComment) : List Nat := (cs.filter isRootComment).map (·.id)

/-- The parent key a truthy reply is grouped under. -/
def parentId (c : PRComment) : Nat := c.inReplyToId.getD 0

/-- The last comment of `cs` that the first pass stores as the root of the
thread with id `q` (later roots overwrite earlier ones in the thread map). -/
def lastRootWith (cs : List PRComment) (q : Nat) : Option PRComment :=
  match cs with
  | [] => none
  | c :: rest =>
    match lastRootWith rest q with
    | some r => some r
    | none => if !optNatTruthy c.inReplyToId && c.id == q then some c else none

/-- Invariant of reply-map entries: each member of a group is a truthy reply
whose parent id is the group key. -/
def groupOK (kg : Nat × List PRComment) : Prop :=
  ∀ x ∈ kg.2, optNatTruthy x.inReplyToId = true ∧ parentId x = kg.1

theorem firstPassAux_nil (tm : List (Nat × CommentThread)) (rm : List (Nat × List PRComment)) :
    firstPassAux tm rm [] = (tm, rm) := rfl

theorem firstPassAux_cons (tm : List (Nat × CommentThread)) (rm : List (Nat × List PRComment))
    (c : PRComment) (cs : List PRComment) :
    firstPassAux tm rm (c :: cs) =
      if optNatTruthy c.inReplyToId then
        firstPassAux tm
          (mapSet rm (c.inReplyToId.getD 0) ((mapGet rm (c.inReplyToId.getD 0)).getD [] ++ [c]))
          cs
      else firstPassAux (mapSet tm c.id (newThread c)) rm cs := rfl

theorem rootIds_cons_reply (c : PRComment) (cs : List PRComment)
    (hc : optNatTruthy c.inReplyToId = true) : rootIds (c :: cs) = rootIds cs := by
  simp [rootIds, isRootComment, List.filter_cons, hc]

theorem rootIds_cons_root (c : PRComment) (cs : List PRComment)
    (hc : optNatTruthy c.inReplyToId = false) : rootIds (c :: cs) = c.id :: rootIds cs := by
  simp [rootIds, isRootComment, List.filter_cons, hc]

theorem firstPass_tm_keys (cs : List PRComment) :
    ∀ (tm : List (Nat × CommentThread)) (rm : List (Nat × List PRComment)) (q : Nat),
      q ∈ mapKeys (firstPassAux tm rm cs).1 ↔ q ∈ mapKeys tm ∨ q ∈ rootIds cs := by
  induction cs with
  | nil =>
    intro tm rm q
    rw [firstPassAux_nil]
    simp [rootIds]
  | cons c rest ih =>
    intro tm rm q
    rw [firstPassAux_cons]
    by_cases hc : optNatTruthy c.inReplyToId = true
    · rw [if_pos hc, ih, rootIds_cons_reply c rest hc]
    · have hc' : optNatTruthy c.inReplyToId = false := Bool.eq_false_iff.mpr hc
      rw [if_neg hc, ih, rootIds_cons_root c rest hc', mem_mapKeys_mapSet, List.mem_cons]
      tauto

theorem firstPass_tm_nodup (cs : List PRComment) :
    ∀ (tm : List (Nat × CommentThread)) (rm : List (Nat × List PRComment)),
      (mapKeys tm).Nodup → (mapKeys (firstPassAux tm rm cs).1).Nodup := by
  induction cs with
  | nil =>
    intro tm rm h
    rw [firstPassAux_nil]
    exact h
  | cons c rest ih =>
    intro tm rm h
    rw [firstPassAux_cons]
    by_cases hc : optNatTruthy c.inReplyToId = true
    · rw [if_pos hc]; exact ih _ _ h
    · rw [if_neg hc]; exact ih _ _ (mapKeys_nodup_mapSet _ _ _ h)

theorem firstPass_rm_nodup (cs : List PRComment) :
    ∀ (tm : List (Nat × CommentThread)) (rm : List (Nat × List PRComment)),
      (mapKeys rm).Nodup → (mapKeys (firstPassAux tm rm cs).2).Nodup := by
  induction cs with
  | nil =>
    intro tm rm h
    rw [firstPassAux_nil]
    exact h
  | cons c rest ih =>
    intro tm rm h
    rw [firstPassAux_cons]
    by_cases hc : optNatTruthy c.inReplyToId = true
    · rw [if_pos hc]; exact ih _ _ (mapKeys_nodup_mapSet _ _ _ h)
    · rw [if_neg hc]; exact ih _ _ h

theorem firstPass_tm_inv (P : Nat × CommentThread → Prop)
    (hnew : ∀ c : PRComment, optNatTruthy c.inReplyToId = false → P (c.id, newThread c))
    (cs : List PRComment) :
    ∀ (tm : List (Nat × CommentThread)) (rm : List (Nat × List PRComment)),
      (∀ kv ∈ tm, P kv) → ∀ kv ∈ (firstPassAux tm rm cs).1, P kv := by
  induction cs with
  | nil =>
    intro tm rm h kv hkv
    rw [firstPassAux_nil] at hkv
    exact h kv hkv
  | cons c rest ih =>
    intro tm rm h kv hkv
    rw [firstPassAux_cons] at hkv
    by_cases hc : optNatTruthy c.inReplyToId = true
    · rw [if_pos hc] at hkv
      exact ih _ _ h kv hkv
    · rw [if_neg hc] at hkv
      refine ih _ _ ?_ kv hkv
      intro kv' hkv'
      rcases mem_mapSet_weak _ _ _ _ hkv' with h1 | h1
      · rw [h1]
        exact hnew c (Bool.eq_false_iff.mpr hc)
      · exact h kv' h1

theorem firstPass_rm_inv (cs : List PRComment) :
    ∀ (tm : List (Nat × CommentThread)) (rm : List (Nat × List PRComment)),
      (∀ kg ∈ rm, groupOK kg) → ∀ kg ∈ (firstPassAux tm rm cs).2, groupOK kg := by
  induction cs with
  | nil =>
    intro tm rm h kg hkg
    rw [firstPassAux_nil] at hkg
    exact h kg hkg
  | cons c rest ih =>
    intro tm rm h kg hkg
    rw [firstPassAux_cons] at hkg
    by_cases hc : optNatTruthy c.inReplyToId = true
    · rw [if_pos hc] at hkg
      refine ih _ _ ?_ kg hkg
      intro kg' hkg'
      rcases mem_mapSet_weak _ _ _ _ hkg' with h1 | h1
      · rw [h1]
        intro x hx
        rcases List.mem_append.mp hx with h2 | h2
        · cases hget : mapGet rm (c.inReplyToId.getD 0) with
          | none => rw [hget] at h2; exact absurd h2 (List.not_mem_nil x)
          | some g0 =>
            rw [hget] at h2
            exact h _ (mapGet_mem _ _ _ hget) x h2
        · have hx2 : x = c := by simpa using h2
          subst hx2
          exact ⟨hc, rfl⟩
      · exact h kg' h1
    · rw [if_neg hc] at hkg
      exact ih _ _ h kg hkg

theorem firstPass_root_lookup (cs : List PRComment) :
    ∀ (tm : List (Nat × CommentThread)) (rm : List (Nat × List PRComment)) (q : Nat),
      mapGet (firstPassAux tm rm cs).1 q =
        match lastRootWith cs q with
        | some r => some (newThread r)
        | none => mapGet tm q := by
  induction cs with
  | nil =>
    intro tm rm q
    rw [firstPassAux_nil]
    rfl
  | cons c rest ih =>
    intro tm rm q
    rw [firstPassAux_cons]
    by_cases hc : optNatTruthy c.inReplyToId = true
    · rw [if_pos hc, ih]
      have hlast : lastRootWith (c :: rest) q = lastRootWith rest q := by
        show (match lastRootWith rest q with
          | some r => some r
          | none => if !optNatTruthy c.inReplyToId && c.id == q then some c else none) = _
        cases lastRootWith rest q with
        | some r => rfl
        | none => simp [hc]
      rw [hlast]
    · have hc' : optNatTruthy c.inReplyToId = false := Bool.eq_false_iff.mpr hc
      rw [if_neg hc, ih]
      cases hl : lastRootWith rest q with
      | some r =>
        have hlast : lastRootWith (c :: rest) q = some r := by
          show (match lastRootWith rest q with
            | some r => some r
            | none => if !optNatTruthy c.inReplyToId && c.id == q then some c else none) = _
          rw [hl]
        rw [hlast]
      | none =>
        have hlast : lastRootWith (c :: rest) q =
            if c.id = q then some c else none := by
          show (match lastRootWith rest q with
            | some r => some r
            | none => if !optNatTruthy c.inReplyToId && c.id == q then some c else none) = _
          rw [hl]
          by_cases hq : c.id = q
          · simp [hc', hq]
          · simp [hc', hq]
        rw [hlast, mapGet_mapSet]
        by_cases hq : c.id = q
        · rw [if_pos hq, if_pos hq]
        · rw [if_neg hq, if_neg hq]

theorem lastRootWith_isRoot (cs : List PRComment) (q : Nat) (r : PRComment)
    (h : lastRootWith cs q = some r) :
    optNatTruthy r.inReplyToId = false ∧ r.id = q := by
  induction cs with
  | nil => exact Option.noConfusion h
  | cons c rest ih =>
    have h' : (match lastRootWith rest q with
        | some r => some r
        | none => if !optNatTruthy c.inReplyToId && c.id == q then some c else none) = some r := h
    cases hl : lastRootWith rest q with
    | some r0 =>
      rw [hl] at h'
      exact ih (hl.trans (Option.some_inj.mp h' ▸ rfl))
    | none =>
      rw [hl] at h'
      by_cases hp : (!optNatTruthy c.inReplyToId && c.id == q) = true
      · rw [if_pos hp] at h'
        obtain ⟨h1, h2⟩ := Bool.and_eq_true .. ▸ hp
        have hcr : c = r := Option.some_inj.mp h'
        subst hcr
        refine ⟨by simpa using h1, by simpa using h2⟩
      · rw [if_neg hp] at h'
        exact Option.noConfusion h'

theorem lastRootWith_eq_getLast (cs : List PRComment) (q : Nat) :
    lastRootWith cs q =
      (cs.filter (fun c => !optNatTruthy c.inReplyToId && c.id == q)).getLast? := by
  induction cs with
  | nil => rfl
  | cons c rest ih =>
    have hstep : lastRootWith (c :: rest) q =
        match lastRootWith rest q with
        | some r => some r
        | none => if !optNatTruthy c.inReplyToId && c.id == q then some c else none := rfl
    rw [hstep, List.filter_cons]
    by_cases hp : (!optNatTruthy c.inReplyToId && c.id == q) = true
    · cases hl : lastRootWith rest q with
      | some r =>
        have hgl : (rest.filter (fun c => !optNatTruthy c.inReplyToId && c.id == q)).getLast?
            = some r := ih ▸ hl
        cases hfl : rest.filter (fun c => !optNatTruthy c.inReplyToId && c.id == q) with
        | nil =>
          rw [hfl] at hgl
          exact absurd hgl (by simp)
        | cons x l2 =>
          rw [hfl] at hgl
          show some r = _
          rw [if_pos hp, List.getLast?_cons_cons, hgl]
      | none =>
        have hgl : (rest.filter (fun c => !optNatTruthy c.inReplyToId && c.id == q)).getLast?
            = none := ih ▸ hl
        have hfl := List.getLast?_eq_none_iff.mp hgl
        show (if (!optNatTruthy c.inReplyToId && c.id == q) = true then some c else none) = _
        rw [if_pos hp, if_pos hp, hfl]
        rfl
    · cases hl : lastRootWith rest q with
      | some r =>
        show some r = _
        rw [if_neg hp, ← ih, hl]
      | none =>
        show (if (!optNatTruthy c.inReplyToId && c.id == q) = true then some c else none) = _
        rw [if_neg hp, if_neg hp, ← ih, hl]

/-- State of a thread created in the first pass before any reply group is
attached. -/
def pristineT (t : CommentThread) : Prop :=
  t.replies = [] ∧ t.participants = [t.rootComment.user]

/-- State of every thread after `buildThreads`: replies sorted by creation
time, every reply a truthy child of the thread, and participants the fold of
the reply authors over the singleton root author. -/
def threadDone (t : CommentThread) : Prop :=
  List.Sorted replyLE t.replies ∧
  (∀ x ∈ t.replies, optNatTruthy x.inReplyToId = true ∧ parentId x = t.id) ∧
  t.participants = (t.replies.map (·.user)).foldl addParticipant [t.rootComment.user]

/-- Facts tying a thread-map entry to its root comment, invariant under both
passes. -/
def baseT (kv : Nat × CommentThread) : Prop :=
  kv.1 = kv.2.id ∧ kv.2.id = kv.2.rootComment.id ∧
  optNatTruthy kv.2.rootComment.inReplyToId = false

theorem pristine_threadDone (t : CommentThread) (h : pristineT t) : threadDone t := by
  obtain ⟨hr, hp⟩ := h
  refine ⟨?_, ?_, ?_⟩
  · rw [hr]; exact List.sorted_nil
  · rw [hr]; intro x hx; exact absurd hx (List.not_mem_nil x)
  · rw [hr, hp]; rfl

theorem attachReplies_id (t : CommentThread) (g : List PRComment) :
    (attachReplies t g).id = t.id := rfl

theorem attachReplies_rootComment (t : CommentThread) (g : List PRComment) :
    (attachReplies t g).rootComment = t.rootComment := rfl

theorem attachReplies_replies (t : CommentThread) (g : List PRComment) :
    (attachReplies t g).replies = sortReplies g := rfl

theorem attachReplies_participants (t : CommentThread) (g : List PRComment) :
    (attachReplies t g).participants =
      (sortReplies g).foldl (fun ps r => addParticipant ps r.user) t.participants := rfl

theorem secondPassAux_nil (tm : List (Nat × CommentThread)) : secondPassAux tm [] = tm := rfl

theorem secondPassAux_cons (tm : List (Nat × CommentThread)) (k : Nat) (g : List PRComment)
    (rest : List (Nat × List PRComment)) :
    secondPassAux tm ((k, g) :: rest) =
      match mapGet tm k with
      | some t => secondPassAux (mapSet tm k (attachReplies t g)) rest
      | none => secondPassAux tm rest := rfl

theorem secondPass_keys (rm : List (Nat × List PRComment)) :
    ∀ tm : List (Nat × CommentThread), mapKeys (secondPassAux tm rm) = mapKeys tm := by
  induction rm with
  | nil => intro tm; rfl
  | cons kg rest ih =>
    intro tm
    obtain ⟨k, g⟩ := kg
    rw [secondPassAux_cons]
    cases hmg : mapGet tm k with
    | none => exact ih tm
    | some t =>
      rw [ih]
      exact mapKeys_mapSet_of_mem tm k _
        (List.mem_map_of_mem (·.1) (mapGet_mem tm k t hmg))

theorem secondPass_inv (rm : List (Nat × List PRComment)) :
    ∀ tm : List (Nat × CommentThread),
      (mapKeys tm).Nodup → (mapKeys rm).Nodup → (∀ kg ∈ rm, groupOK kg) →
      (∀ kv ∈ tm, baseT kv ∧ (kv.1 ∈ mapKeys rm → pristineT kv.2) ∧
        (kv.1 ∉ mapKeys rm → threadDone kv.2)) →
      ∀ kv ∈ secondPassAux tm rm, baseT kv ∧ threadDone kv.2 := by
  induction rm with
  | nil =>
    intro tm _ _ _ hin kv hkv
    rw [secondPassAux_nil] at hkv
    obtain ⟨hb, _, hd⟩ := hin kv hkv
    exact ⟨hb, hd (by rw [mapKeys_nil]; exact List.not_mem_nil _)⟩
  | cons kg rest ih =>
    intro tm hndtm hndrm hg hin kv hkv
    obtain ⟨k, g⟩ := kg
    rw [mapKeys_cons, List.nodup_cons] at hndrm
    rw [secondPassAux_cons] at hkv
    cases hmg : mapGet tm k with
    | none =>
      rw [hmg] at hkv
      refine ih tm hndtm hndrm.2 (fun kg' hkg' => hg kg' (List.mem_cons_of_mem _ hkg')) ?_ kv hkv
      intro kv' hkv'
      obtain ⟨hb, hp, hd⟩ := hin kv' hkv'
      refine ⟨hb, fun hmem => hp (by rw [mapKeys_cons]; exact List.mem_cons_of_mem _ hmem), ?_⟩
      intro hmem
      refine hd ?_
      rw [mapKeys_cons, List.mem_cons]
      rintro (h1 | h1)
      · have hk : k ∈ mapKeys tm := by
          have hmm : kv'.1 ∈ mapKeys tm := List.mem_map_of_mem (·.1) hkv'
          have h1' : kv'.1 = k := h1
          exact h1' ▸ hmm
        exact (mapGet_eq_none_iff tm k).mp hmg hk
      · exact hmem h1
    | some t =>
      rw [hmg] at hkv
      have htmem : (k, t) ∈ tm := mapGet_mem tm k t hmg
      obtain ⟨hb, hp, _⟩ := hin (k, t) htmem
      have hpt : pristineT t := hp (by rw [mapKeys_cons]; exact List.mem_cons_self _ _)
      have hgk : groupOK (k, g) := hg (k, g) (List.mem_cons_self _ _)
      have hkt : k = t.id := hb.1
      have hdone : threadDone (attachReplies t g) := by
        refine ⟨?_, ?_, ?_⟩
        · rw [attachReplies_replies]
          exact List.sorted_insertionSort replyLE g
        · intro x hx
          rw [attachReplies_replies] at hx
          have hxg : x ∈ g := (List.perm_insertionSort replyLE g).mem_iff.mp hx
          obtain ⟨h1, h2⟩ := hgk x hxg
          exact ⟨h1, by rw [attachReplies_id, ← hkt]; exact h2⟩
        · rw [attachReplies_participants, attachReplies_replies, attachReplies_rootComment,
            hpt.2, List.foldl_map]
      have hbase : baseT (k, attachReplies t g) := by
        refine ⟨?_, ?_, ?_⟩
        · rw [attachReplies_id]; exact hb.1
        · rw [attachReplies_id, attachReplies_rootComment]; exact hb.2.1
        · rw [attachReplies_rootComment]; exact hb.2.2
      refine ih (mapSet tm k (attachReplies t g)) (mapKeys_nodup_mapSet tm k _ hndtm)
        hndrm.2 (fun kg' hkg' => hg kg' (List.mem_cons_of_mem _ hkg')) ?_ kv hkv
      intro kv' hkv'
      rcases mem_mapSet_nodup tm k _ kv' hndtm hkv' with h1 | ⟨h1, h2⟩
      · subst h1
        refine ⟨hbase, ?_, fun _ => hdone⟩
        intro hmem
        exact absurd hmem hndrm.1
      · obtain ⟨hb', hp', hd'⟩ := hin kv' h1
        refine ⟨hb', fun hmem => hp' (by rw [mapKeys_cons]; exact List.mem_cons_of_mem _ hmem), ?_⟩
        intro hmem
        refine hd' ?_
        rw [mapKeys_cons, List.mem_cons]
        rintro (h3 | h3)
        · exact h2 h3
        · exact hmem h3

theorem secondPass_proj {α : Type} (f : CommentThread → α)
    (hf : ∀ t g, f (attachReplies t g) = f t) (rm : List (Nat × List PRComment)) :
    ∀ (tm : List (Nat × CommentThread)) (q : Nat),
      (mapGet (secondPassAux tm rm) q).map f = (mapGet tm q).map f := by
  induction rm with
  | nil => intro tm q; rfl
  | cons kg rest ih =>
    intro tm q
    obtain ⟨k, g⟩ := kg
    rw [secondPassAux_cons]
    cases hmg : mapGet tm k with
    | none => exact ih tm q
    | some t =>
      rw [ih, mapGet_mapSet]
      by_cases hq : k = q
      · subst hq
        rw [if_pos rfl, hmg]
        show some (f (attachReplies t g)) = some (f t)
        rw [hf]
      · rw [if_neg hq]

theorem firstPass_start_inv (cs : List PRComment) :
    ∀ kv ∈ (firstPassAux [] [] cs).1, baseT kv ∧ pristineT kv.2 := by
  refine firstPass_tm_inv (fun kv => baseT kv ∧ pristineT kv.2) ?_ cs [] [] ?_
  · intro c hc
    exact ⟨⟨rfl, rfl, hc⟩, rfl, rfl⟩
  · intro kv hkv
    exact absurd hkv (List.not_mem_nil kv)

theorem buildThreads_mem (cs : List PRComment) (t : CommentThread) (ht : t ∈ buildThreads cs) :
    t.id = t.rootComment.id ∧ optNatTruthy t.rootComment.inReplyToId = false ∧
    threadDone t ∧ t.id ∈ rootIds cs ∧ lastRootWith cs t.id = some t.rootComment := by
  simp only [buildThreads] at ht
  have hvals : t ∈ (secondPassAux (firstPassAux [] [] cs).1 (firstPassAux [] [] cs).2).map (·.2) :=
    (List.perm_insertionSort threadLE _).mem_iff.mp ht
  obtain ⟨kv, hkv, hkv2⟩ := List.mem_map.mp hvals
  have hndtm : (mapKeys (firstPassAux [] [] cs).1).Nodup :=
    firstPass_tm_nodup cs [] [] (by rw [mapKeys_nil]; exact List.nodup_nil)
  have hndrm : (mapKeys (firstPassAux [] [] cs).2).Nodup :=
    firstPass_rm_nodup cs [] [] (by rw [mapKeys_nil]; exact List.nodup_nil)
  have hgroups : ∀ kg ∈ (firstPassAux [] [] cs).2, groupOK kg :=
    firstPass_rm_inv cs [] [] (fun kg hkg => absurd hkg (List.not_mem_nil kg))
  have hin : ∀ kv' ∈ (firstPassAux [] [] cs).1,
      baseT kv' ∧ (kv'.1 ∈ mapKeys (firstPassAux [] [] cs).2 → pristineT kv'.2) ∧
      (kv'.1 ∉ mapKeys (firstPassAux [] [] cs).2 → threadDone kv'.2) := by
    intro kv' hkv'
    obtain ⟨hb, hp⟩ := firstPass_start_inv cs kv' hkv'
    exact ⟨hb, fun _ => hp, fun _ => pristine_threadDone _ hp⟩
  have hmain := secondPass_inv (firstPassAux [] [] cs).2 (firstPassAux [] [] cs).1
    hndtm hndrm hgroups hin kv hkv
  obtain ⟨⟨hb1, hb2, hb3⟩, hdone⟩ := hmain
  have hk : kv.1 = t.id := by rw [hb1, hkv2]
  have hmemkeys : t.id ∈ mapKeys (firstPassAux [] [] cs).1 := by
    have h1 : kv.1 ∈ mapKeys (secondPassAux (firstPassAux [] [] cs).1 (firstPassAux [] [] cs).2) :=
      List.mem_map_of_mem (·.1) hkv
    rw [secondPass_keys] at h1
    exact hk ▸ h1
  have hroot : t.id ∈ rootIds cs := by
    rcases (firstPass_tm_keys cs [] [] t.id).mp hmemkeys with h1 | h1
    · exact absurd h1 (by rw [mapKeys_nil]; exact List.not_mem_nil _)
    · exact h1
  have hndsp : (mapKeys (secondPassAux (firstPassAux [] [] cs).1 (firstPassAux [] [] cs).2)).Nodup := by
    rw [secondPass_keys]
    exact hndtm
  have hkvmem : (kv.1, t) ∈ secondPassAux (firstPassAux [] [] cs).1 (firstPassAux [] [] cs).2 := by
    have : kv = (kv.1, t) := by
      rw [← hkv2]
    exact this ▸ hkv
  have hgetsp : mapGet (secondPassAux (firstPassAux [] [] cs).1 (firstPassAux [] [] cs).2) kv.1 =
      some t := mapGet_of_mem_nodup _ _ _ hndsp hkvmem
  have hproj := secondPass_proj (fun th => th.rootComment) (fun _ _ => rfl)
    (firstPassAux [] [] cs).2 (firstPassAux [] [] cs).1 kv.1
  rw [hgetsp] at hproj
  have hlook := firstPass_root_lookup cs [] [] kv.1
  cases hlr : lastRootWith cs kv.1 with
  | none =>
    rw [hlr] at hlook
    rw [hlook] at hproj
    exact absurd hproj.symm (by rw [mapGet_nil]; simp)
  | some r =>
    rw [hlr] at hlook
    rw [hlook] at hproj
    have hrc : t.rootComment = r := by
      have := Option.some_inj.mp hproj
      exact this
    refine ⟨by rw [hkv2] at hb2; exact hb2, by rw [hkv2] at hb3; exact hb3,
      by rw [hkv2] at hdone; exact hdone, hroot, ?_⟩
    rw [← hk, hlr, hrc]

theorem buildThreads_ids_nodup (cs : List PRComment) :
    ((buildThreads cs).map (·.id)).Nodup := by
  have hndtm : (mapKeys (firstPassAux [] [] cs).1).Nodup :=
    firstPass_tm_nodup cs [] [] (by rw [mapKeys_nil]; exact List.nodup_nil)
  have hndrm : (mapKeys (firstPassAux [] [] cs).2).Nodup :=
    firstPass_rm_nodup cs [] [] (by rw [mapKeys_nil]; exact List.nodup_nil)
  have hgroups : ∀ kg ∈ (firstPassAux [] [] cs).2, groupOK kg :=
    firstPass_rm_inv cs [] [] (fun kg hkg => absurd hkg (List.not_mem_nil kg))
  have hin : ∀ kv' ∈ (firstPassAux [] [] cs).1,
      baseT kv' ∧ (kv'.1 ∈ mapKeys (firstPassAux [] [] cs).2 → pristineT kv'.2) ∧
      (kv'.1 ∉ mapKeys (firstPassAux [] [] cs).2 → threadDone kv'.2) := by
    intro kv' hkv'
    obtain ⟨hb, hp⟩ := firstPass_start_inv cs kv' hkv'
    exact ⟨hb, fun _ => hp, fun _ => pristine_threadDone _ hp⟩
  have hids : ∀ kv ∈ secondPassAux (firstPassAux [] [] cs).1 (firstPassAux [] [] cs).2,
      kv.2.id = kv.1 := by
    intro kv hkv
    exact (secondPass_inv _ _ hndtm hndrm hgroups hin kv hkv).1.1.symm
  have heq : ((secondPassAux (firstPassAux [] [] cs).1 (firstPassAux [] [] cs).2).map (·.2)).map
        (·.id) =
      mapKeys (secondPassAux (firstPassAux [] [] cs).1 (firstPassAux [] [] cs).2) := by
    rw [List.map_map]
    exact List.map_congr_left hids
  have hnd : (((secondPassAux (firstPassAux [] [] cs).1 (firstPassAux [] [] cs).2).map
      (·.2)).map (·.id)).Nodup := by
    rw [heq, secondPass_keys]
    exact hndtm
  have hperm : List.Perm ((buildThreads cs).map (·.id))
      (((secondPassAux (firstPassAux [] [] cs).1 (firstPassAux [] [] cs).2).map (·.2)).map
        (·.id)) := by
    simp only [buildThreads]
    exact (List.perm_insertionSort threadLE _).map (·.id)
  exact hperm.nodup_iff.mpr hnd

/-! ## Helper lemmas: participant collection -/

/-- Deduplication keeping the first occurrence of each handle — the order in
which `addParticipant` accumulates previously unseen authors. -/
def dedupFirst : List String → List String
  | [] => []
  | u :: us => u :: dedupFirst (us.filter (fun v => v ≠ u))
termination_by l => l.length
decreasing_by
  simp only [List.length_cons]
  exact Nat.lt_succ_of_le (List.length_filter_le _ _)

theorem dedupFirst_nil : dedupFirst [] = [] := by
  rw [dedupFirst]

theorem dedupFirst_cons (u : String) (us : List String) :
    dedupFirst (u :: us) = u :: dedupFirst (us.filter (fun v => v ≠ u)) := by
  rw [dedupFirst]

theorem dedupFirst_sublist (l : List String) : List.Sublist (dedupFirst l) l := by
  match l with
  | [] =>
    rw [dedupFirst_nil]
  | u :: us =>
    rw [dedupFirst_cons]
    have h := dedupFirst_sublist (us.filter (fun v => v ≠ u))
    exact (h.trans (List.filter_sublist us)).cons₂ u
termination_by l.length
decreasing_by
  simp only [List.length_cons]
  exact Nat.lt_succ_of_le (List.length_filter_le _ _)

theorem dedupFirst_nodup (l : List String) : (dedupFirst l).Nodup := by
  match l with
  | [] =>
    rw [dedupFirst_nil]
    exact List.nodup_nil
  | u :: us =>
    rw [dedupFirst_cons, List.nodup_cons]
    constructor
    · intro hu
      have hmem : u ∈ us.filter (fun v => v ≠ u) :=
        (dedupFirst_sublist _).mem hu
      have := List.of_mem_filter hmem
      simp at this
    · exact dedupFirst_nodup (us.filter (fun v => v ≠ u))
termination_by l.length
decreasing_by
  simp only [List.length_cons]
  exact Nat.lt_succ_of_le (List.length_filter_le _ _)

theorem foldl_addParticipant_eq (us : List String) :
    ∀ ps : List String, us.foldl addParticipant ps =
      ps ++ dedupFirst (us.filter (fun u => u ∉ ps)) := by
  induction us with
  | nil =>
    intro ps
    rw [List.foldl_nil, List.filter_nil, dedupFirst_nil, List.append_nil]
  | cons u us' ih =>
    intro ps
    rw [List.foldl_cons, List.filter_cons]
    by_cases hu : u ∈ ps
    · have haddp : addParticipant ps u = ps := by rw [addParticipant, if_pos hu]
      have hdec : (decide (u ∉ ps)) = false := by simp [hu]
      rw [haddp, hdec, if_neg (by simp), ih]
    · have haddp : addParticipant ps u = ps ++ [u] := by rw [addParticipant, if_neg hu]
      have hdec : (decide (u ∉ ps)) = true := by simp [hu]
      rw [haddp, hdec, if_pos rfl, ih, dedupFirst_cons]
      have hff : (us'.filter (fun v => v ∉ ps)).filter (fun v => v ≠ u) =
          us'.filter (fun v => v ∉ ps ++ [u]) := by
        rw [List.filter_filter]
        refine List.filter_congr ?_
        intro v _
        by_cases hv1 : v = u
        · simp [hv1]
        · by_cases hv2 : v ∈ ps
          · simp [hv1, hv2]
          · simp [hv1, hv2]
      rw [hff]
      simp

/-! ## Helper lemmas: orphan purging -/

/-- A comment the second pass necessarily drops: a truthy reply whose parent
id is the id of no (code-sense) root in the batch. -/
def isOrphanB (cs : List PRComment) (c : PRComment) : Bool :=
  optNatTruthy c.inReplyToId && !(decide (parentId c ∈ rootIds cs))

/-- Restriction of a map to the keys in `R` (used to relate the reply maps of
the original and the orphan-purged lists). -/
def keyFilter (R : List Nat) {β : Type} (m : List (Nat × β)) : List (Nat × β) :=
  m.filter (fun kv => decide (kv.1 ∈ R))

theorem keyFilter_nil (R : List Nat) {β : Type} : keyFilter R ([] : List (Nat × β)) = [] := rfl

theorem mapGet_keyFilter (R : List Nat) {β : Type} (m : List (Nat × β)) (k : Nat) (hk : k ∈ R) :
    mapGet (keyFilter R m) k = mapGet m k := by
  induction m with
  | nil => rfl
  | cons kv rest ih =>
    obtain ⟨k', v'⟩ := kv
    by_cases hk' : k' ∈ R
    · have : keyFilter R ((k', v') :: rest) = (k', v') :: keyFilter R rest := by
        simp [keyFilter, List.filter_cons, hk']
      rw [this, mapGet_cons, mapGet_cons]
      by_cases h : k' = k
      · rw [if_pos h, if_pos h]
      · rw [if_neg h, if_neg h, ih]
    · have hne : k' ≠ k := fun hh => hk' (hh ▸ hk)
      have : keyFilter R ((k', v') :: rest) = keyFilter R rest := by
        simp [keyFilter, List.filter_cons, hk']
      rw [this, mapGet_cons, if_neg hne, ih]

theorem mapSet_keyFilter_mem (R : List Nat) {β : Type} (m : List (Nat × β)) (k : Nat) (v : β)
    (hk : k ∈ R) : mapSet (keyFilter R m) k v = keyFilter R (mapSet m k v) := by
  induction m with
  | nil =>
    rw [keyFilter_nil, mapSet_nil]
    simp [keyFilter, List.filter_cons, hk]
  | cons kv rest ih =>
    obtain ⟨k', v'⟩ := kv
    rw [mapSet_cons]
    by_cases h1 : k' = k
    · subst h1
      have hcons : keyFilter R ((k', v') :: rest) = (k', v') :: keyFilter R rest := by
        simp [keyFilter, List.filter_cons, hk]
      rw [if_pos rfl, hcons, mapSet_cons, if_pos rfl]
      simp [keyFilter, List.filter_cons, hk]
    · rw [if_neg h1]
      by_cases hk' : k' ∈ R
      · have hcons : keyFilter R ((k', v') :: rest) = (k', v') :: keyFilter R rest := by
          simp [keyFilter, List.filter_cons, hk']
        have hcons2 : keyFilter R ((k', v') :: mapSet rest k v) =
            (k', v') :: keyFilter R (mapSet rest k v) := by
          simp [keyFilter, List.filter_cons, hk']
        rw [hcons, hcons2, mapSet_cons, if_neg h1, ih]
      · have hcons : keyFilter R ((k', v') :: rest) = keyFilter R rest := by
          simp [keyFilter, List.filter_cons, hk']
        have hcons2 : keyFilter R ((k', v') :: mapSet rest k v) =
            keyFilter R (mapSet rest k v) := by
          simp [keyFilter, List.filter_cons, hk']
        rw [hcons, hcons2, ih]

theorem keyFilter_mapSet_not_mem (R : List Nat) {β : Type} (m : List (Nat × β)) (k : Nat) (v : β)
    (hk : k ∉ R) : keyFilter R (mapSet m k v) = keyFilter R m := by
  induction m with
  | nil =>
    rw [mapSet_nil, keyFilter_nil]
    simp [keyFilter, List.filter_cons, hk]
  | cons kv rest ih =>
    obtain ⟨k', v'⟩ := kv
    rw [mapSet_cons]
    by_cases h1 : k' = k
    · subst h1
      have hk' : k' ∉ R := hk
      simp [keyFilter, List.filter_cons, hk']
    · rw [if_neg h1]
      by_cases hk' : k' ∈ R
      · have hcons : keyFilter R ((k', v') :: mapSet rest k v) =
            (k', v') :: keyFilter R (mapSet rest k v) := by
          simp [keyFilter, List.filter_cons, hk']
        have hcons2 : keyFilter R ((k', v') :: rest) = (k', v') :: keyFilter R rest := by
          simp [keyFilter, List.filter_cons, hk']
        rw [hcons, hcons2, ih]
      · have hcons : keyFilter R ((k', v') :: mapSet rest k v) =
            keyFilter R (mapSet rest k v) := by
          simp [keyFilter, List.filter_cons, hk']
        have hcons2 : keyFilter R ((k', v') :: rest) = keyFilter R rest := by
          simp [keyFilter, List.filter_cons, hk']
        rw [hcons, hcons2, ih]

theorem firstPass_purge (R : List Nat) (cs : List PRComment) :
    ∀ (tm : List (Nat × CommentThread)) (rm : List (Nat × List PRComment)),
      firstPassAux tm (keyFilter R rm)
        (cs.filter (fun c => !(optNatTruthy c.inReplyToId && !(decide (parentId c ∈ R))))) =
      ((firstPassAux tm rm cs).1, keyFilter R (firstPassAux tm rm cs).2) := by
  induction cs with
  | nil =>
    intro tm rm
    rw [List.filter_nil, firstPassAux_nil, firstPassAux_nil]
  | cons c rest ih =>
    intro tm rm
    rw [List.filter_cons]
    by_cases hc : optNatTruthy c.inReplyToId = true
    · by_cases hp : parentId c ∈ R
      · have hkeep : (!(optNatTruthy c.inReplyToId && !(decide (parentId c ∈ R)))) = true := by
          simp [hc, hp]
        rw [if_pos hkeep, firstPassAux_cons, if_pos hc]
        have hget : mapGet (keyFilter R rm) (c.inReplyToId.getD 0) =
            mapGet rm (c.inReplyToId.getD 0) := mapGet_keyFilter R rm _ hp
        have hset : mapSet (keyFilter R rm) (c.inReplyToId.getD 0)
              ((mapGet rm (c.inReplyToId.getD 0)).getD [] ++ [c]) =
            keyFilter R (mapSet rm (c.inReplyToId.getD 0)
              ((mapGet rm (c.inReplyToId.getD 0)).getD [] ++ [c])) :=
          mapSet_keyFilter_mem R rm _ _ hp
        rw [hget, hset, ih]
        rw [firstPassAux_cons, if_pos hc]
      · have hkeep : (!(optNatTruthy c.inReplyToId && !(decide (parentId c ∈ R)))) = false := by
          simp [hc, hp]
        rw [if_neg (by rw [hkeep]; exact Bool.false_ne_true)]
        have hkf : keyFilter R (mapSet rm (c.inReplyToId.getD 0)
              ((mapGet rm (c.inReplyToId.getD 0)).getD [] ++ [c])) = keyFilter R rm :=
          keyFilter_mapSet_not_mem R rm _ _ hp
        rw [← hkf, ih]
        rw [firstPassAux_cons, if_pos hc]
    · have hkeep : (!(optNatTruthy c.inReplyToId && !(decide (parentId c ∈ R)))) = true := by
        have hc' : optNatTruthy c.inReplyToId = false := Bool.eq_false_iff.mpr hc
        simp [hc']
      rw [if_pos hkeep, firstPassAux_cons, if_neg hc, ih]
      rw [firstPassAux_cons, if_neg hc]

theorem secondPass_keyFilter (R : List Nat) (rm : List (Nat × List PRComment)) :
    ∀ tm : List (Nat × CommentThread), (∀ q, q ∈ mapKeys tm → q ∈ R) →
      secondPassAux tm (keyFilter R rm) = secondPassAux tm rm := by
  induction rm with
  | nil =>
    intro tm _
    rw [keyFilter_nil]
  | cons kg rest ih =>
    intro tm hsub
    obtain ⟨k, g⟩ := kg
    by_cases hk : k ∈ R
    · have hcons : keyFilter R ((k, g) :: rest) = (k, g) :: keyFilter R rest := by
        simp [keyFilter, List.filter_cons, hk]
      rw [hcons, secondPassAux_cons, secondPassAux_cons]
      cases hmg : mapGet tm k with
      | none => exact ih tm hsub
      | some t =>
        refine ih (mapSet tm k (attachReplies t g)) ?_
        intro q hq
        rw [mapKeys_mapSet_of_mem tm k _
          (List.mem_map_of_mem (·.1) (mapGet_mem tm k t hmg))] at hq
        exact hsub q hq
    · have hcons : keyFilter R ((k, g) :: rest) = keyFilter R rest := by
        simp [keyFilter, List.filter_cons, hk]
      rw [hcons, secondPassAux_cons]
      have hmg : mapGet tm k = none := by
        rw [mapGet_eq_none_iff]
        intro hmem
        exact hk (hsub k hmem)
      rw [hmg]
      exact ih tm hsub

theorem buildThreads_purge (cs : List PRComment) :
    buildThreads (cs.filter (fun c => !isOrphanB cs c)) = buildThreads cs := by
  have hfp : firstPassAux [] [] (cs.filter (fun c => !isOrphanB cs c)) =
      ((firstPassAux [] [] cs).1, keyFilter (rootIds cs) (firstPassAux [] [] cs).2) :=
    firstPass_purge (rootIds cs) cs [] []
  have hfp1 : (firstPassAux [] [] (cs.filter (fun c => !isOrphanB cs c))).1 =
      (firstPassAux [] [] cs).1 := by rw [hfp]
  have hfp2 : (firstPassAux [] [] (cs.filter (fun c => !isOrphanB cs c))).2 =
      keyFilter (rootIds cs) (firstPassAux [] [] cs).2 := by rw [hfp]
  have hsp : secondPassAux (firstPassAux [] [] cs).1
        (keyFilter (rootIds cs) (firstPassAux [] [] cs).2) =
      secondPassAux (firstPassAux [] [] cs).1 (firstPassAux [] [] cs).2 := by
    refine secondPass_keyFilter (rootIds cs) _ _ ?_
    intro q hq
    rcases (firstPass_tm_keys cs [] [] q).mp hq with h1 | h1
    · exact absurd h1 (by rw [mapKeys_nil]; exact List.not_mem_nil _)
    · exact h1
  simp only [buildThreads]
  rw [hfp1, hfp2, hsp]

/-! ## Concrete data for counterexamples and witnesses -/

/-- A comment whose `inReplyToId` is set, but set to `0` — falsy in JS. -/
def orphanZero : PRComment :=
  { path := "f", line := 1, body := "z", user := "a", id := 1, inReplyToId := some 0 }

/-- Root of the epoch-tie scenario. -/
def zRoot : PRComment := { path := "e", line := 1, body := "r", user := "a", id := 1 }

/-- A reply timestamped exactly at the epoch. -/
def zEpoch : PRComment :=
  { path := "e", line := 1, body := "t", user := "b", id := 2, createdAt := some 0,
    inReplyToId := some 1 }

/-- A reply with no timestamp. -/
def zMiss : PRComment :=
  { path := "e", line := 1, body := "m", user := "c", id := 3, inReplyToId := some 1 }

/-- Participants-witness scenario: root by `a`. -/
def wcRoot : PRComment := { path := "f", line := 10, body := "r", user := "a", id := 1 }

/-- Participants-witness scenario: reply by `b`. -/
def wcR1 : PRComment :=
  { path := "f", line := 10, body := "x", user := "b", id := 2, inReplyToId := some 1 }

/-- Participants-witness scenario: reply by `a` again. -/
def wcR2 : PRComment :=
  { path := "f", line := 10, body := "y", user := "a", id := 3, inReplyToId := some 1 }

/-- The single thread built from the participants-witness scenario. -/
def wcThread : CommentThread :=
  { id := 1, path := "f", line := 10, rootComment := wcRoot, replies := [wcR1, wcR2],
    resolved := false, participants := ["a", "b"] }

/-- Sort-witness scenario: root. -/
def tRoot : PRComment := { path := "g", line := 3, body := "r", user := "a", id := 1 }

/-- Sort-witness scenario: reply with no timestamp. -/
def tMiss : PRComment :=
  { path := "g", line := 3, body := "m", user := "b", id := 2, inReplyToId := some 1 }

/-- Sort-witness scenario: reply timestamped after the epoch. -/
def tLate : PRComment :=
  { path := "g", line := 3, body := "l", user := "c", id := 3, createdAt := some 5,
    inReplyToId := some 1 }

/-- The single thread built from the sort-witness scenario. -/
def tThread : CommentThread :=
  { id := 1, path := "g", line := 3, rootComment := tRoot, replies := [tMiss, tLate],
    resolved := false, participants := ["a", "b", "c"] }

/-- Duplicate-root scenario: the earlier root with id 7. -/
def dupA : PRComment := { path := "h", line := 2, body := "first", user := "a", id := 7 }

/-- Duplicate-root scenario: the later root with id 7. -/
def dupB : PRComment := { path := "h", line := 2, body := "second", user := "b", id := 7 }

/-- The single thread built from the duplicate-root scenario. -/
def dupThread : CommentThread :=
  { id := 7, path := "h", line := 2, rootComment := dupB, replies := [],
    resolved := false, participants := ["b"] }

/-- Orphan-witness scenario: the root. -/
def rootW : PRComment := { path := "k", line := 4, body := "r", user := "a", id := 1 }

/-- Orphan-witness scenario: a reply whose parent id 99 has no root. -/
def orphanW : PRComment :=
  { path := "k", line := 4, body := "o", user := "b", id := 2, inReplyToId := some 99 }

/-- The single thread built from the orphan-witness scenario. -/
def orphanWThread : CommentThread :=
  { id := 1, path := "k", line := 4, rootComment := rootW, replies := [],
    resolved := false, participants := ["a"] }

/-- C4, counterexample: a comment whose `inReplyToId` is set to `0` is falsy
under the code's truthiness test, so instead of being dropped (no root in the
list has id 0 — indeed the list has no comment without `inReplyToId` at all)
it becomes a thread root of its own and is counted. -/
theorem buildThreads_orphan_zero_cex :
    orphanZero.inReplyToId = some 0 ∧
    ([orphanZero].filter (fun c => c.inReplyToId == none)) = [] ∧
    (buildThreads [orphanZero]).length = 1 ∧
    (buildThreads [orphanZero]).map (·.rootComment) = [orphanZero] := by decide

/-- C4, amended: a comment whose `inReplyToId` is set to a truthy (nonzero)
id that matches the id of no comment with falsy (absent or zero)
`inReplyToId` in the list is dropped: removing all such orphans leaves
`buildThreads` unchanged (hence they contribute nothing to participants or
counts), and each of them is no thread's root comment and in no thread's
replies. -/
theorem buildThreads_orphans_spec (cs : List PRComment) :
    buildThreads (cs.filter (fun c => !isOrphanB cs c)) = buildThreads cs ∧
    (∀ c ∈ cs, optNatTruthy c.inReplyToId = true → parentId c ∉ rootIds cs →
      ∀ t ∈ buildThreads cs, t.rootComment ≠ c ∧ c ∉ t.replies) := by
  refine ⟨buildThreads_purge cs, ?_⟩
  intro c _ htruthy hnp t ht
  obtain ⟨_, hfalsy, hdone, hrootids, _⟩ := buildThreads_mem cs t ht
  constructor
  · intro heq
    rw [heq, htruthy] at hfalsy
    exact Bool.noConfusion hfalsy
  · intro hmem
    obtain ⟨_, h2⟩ := hdone.2.1 c hmem
    refine hnp ?_
    rw [h2]
    exact hrootids

/-- C4, witness: the reply to the non-existent root 99 is no thread's root
and in no thread's replies in the orphan-witness scenario. -/
theorem buildThreads_orphans_spec_witness :
    orphanWThread.rootComment ≠ orphanW ∧ orphanW ∉ orphanWThread.replies :=
  (buildThreads_orphans_spec [rootW, orphanW]).2 orphanW (by decide) (by decide) (by decide)
    orphanWThread (by decide)

/-- C5, counterexample: a reply timestamped exactly at the epoch ties with a
missing-timestamp reply (both sort keys are 0); the stable sort keeps input
order, so the timestamped reply `zEpoch` comes before the missing-timestamp
reply `zMiss` — the missing one does not sort before all timestamped
replies. -/
theorem buildThreads_epoch_tie_cex :
    (buildThreads [zRoot, zEpoch, zMiss]).map (·.replies) = [[zEpoch, zMiss]] ∧
    zEpoch.createdAt = some 0 ∧ zMiss.createdAt = none := by decide

/-- C5, amended: every thread's replies are sorted ascending by creation
timestamp with a missing timestamp read as the epoch; consequently a
missing-timestamp reply is positioned before every reply whose timestamp is
after the epoch (replies timestamped exactly at the epoch tie with it and
keep input order). -/
theorem buildThreads_replies_sorted (cs : List PRComment) (t : CommentThread)
    (ht : t ∈ buildThreads cs) :
    List.Sorted replyLE t.replies ∧
    ∀ i j : Fin t.replies.length,
      (t.replies.get i).createdAt = none →
      0 < (t.replies.get j).createdAt.getD 0 → (i : Nat) < (j : Nat) := by
  obtain ⟨_, _, hdone, _, _⟩ := buildThreads_mem cs t ht
  obtain ⟨hsort, _, _⟩ := hdone
  refine ⟨hsort, ?_⟩
  intro i j hi hj
  by_contra hcon
  have hle : (j : Nat) ≤ (i : Nat) := Nat.le_of_not_lt hcon
  rcases Nat.eq_or_lt_of_le hle with heq | hlt2
  · have hij : i = j := Fin.ext heq.symm
    rw [← hij, hi] at hj
    exact absurd hj (by simp)
  · have hrel : replyLE (t.replies.get j) (t.replies.get i) :=
      List.pairwise_iff_get.mp hsort j i hlt2
    unfold replyLE at hrel
    rw [hi] at hrel
    simp only [Option.getD_none, Nat.le_zero] at hrel
    rw [hrel] at hj
    exact absurd hj (by simp)

/-- C5, witness: in the sort-witness scenario the missing-timestamp reply
(index 0) precedes the epoch+5 reply (index 1). -/
theorem buildThreads_replies_sorted_witness :
    List.Sorted replyLE tThread.replies ∧ (0 : Nat) < 1 :=
  ⟨(buildThreads_replies_sorted [tRoot, tLate, tMiss] tThread (by decide)).1,
   (buildThreads_replies_sorted [tRoot, tLate, tMiss] tThread (by decide)).2
     ⟨0, by decide⟩ ⟨1, by decide⟩ (by decide) (by decide)⟩

/-- C6: every thread's participants list is duplicate-free, headed by the
root comment's author, and continues with the reply authors in order of
first appearance (in the stored, sorted reply order), the root author
excluded from re-listing. -/
theorem buildThreads_participants_spec (cs : List PRComment) (t : CommentThread)
    (ht : t ∈ buildThreads cs) :
    t.participants.Nodup ∧
    t.participants.head? = some t.rootComment.user ∧
    t.participants = t.rootComment.user ::
      dedupFirst ((t.replies.map (·.user)).filter (fun u => u ≠ t.rootComment.user)) := by
  obtain ⟨_, _, hdone, _, _⟩ := buildThreads_mem cs t ht
  obtain ⟨_, _, hpart⟩ := hdone
  have heq : t.participants = t.rootComment.user ::
      dedupFirst ((t.replies.map (·.user)).filter (fun u => u ≠ t.rootComment.user)) := by
    rw [hpart, foldl_addParticipant_eq]
    have hfc : (t.replies.map (·.user)).filter (fun u => decide (u ∉ [t.rootComment.user])) =
        (t.replies.map (·.user)).filter (fun u => u ≠ t.rootComment.user) := by
      refine List.filter_congr ?_
      intro v _
      simp
    rw [hfc]
    rfl
  refine ⟨?_, ?_, heq⟩
  · rw [heq, List.nodup_cons]
    constructor
    · intro hmem
      have h1 := (dedupFirst_sublist _).mem hmem
      have h2 := List.of_mem_filter h1
      simp at h2
    · exact dedupFirst_nodup _
  · rw [heq]
    rfl

/-- C6, witness: in the participants-witness scenario (root by `a`, replies
by `b` and `a`) the participants are exactly `[a, b]`. -/
theorem buildThreads_participants_spec_witness :
    wcThread.participants.Nodup ∧
    wcThread.participants.head? = some wcThread.rootComment.user ∧
    wcThread.participants = wcThread.rootComment.user ::
      dedupFirst ((wcThread.replies.map (·.user)).filter
        (fun u => u ≠ wcThread.rootComment.user)) :=
  buildThreads_participants_spec [wcRoot, wcR1, wcR2] wcThread (by decide)

/-- C10: thread ids are duplicate-free (at most one thread per comment id);
each thread's root comment is the last comment in input order with falsy
`inReplyToId` and that id, so of two duplicate-id roots only the later one
becomes the `rootComment`; and no thread's replies contain any falsy-reply-id
comment, so an overwritten earlier root appears nowhere in the output. -/
theorem buildThreads_dup_roots (cs : List PRComment) :
    ((buildThreads cs).map (·.id)).Nodup ∧
    ∀ t ∈ buildThreads cs,
      (cs.filter (fun c => !optNatTruthy c.inReplyToId && c.id == t.id)).getLast? =
        some t.rootComment ∧
      t.id = t.rootComment.id ∧
      optNatTruthy t.rootComment.inReplyToId = false ∧
      ∀ x ∈ t.replies, optNatTruthy x.inReplyToId = true := by
  refine ⟨buildThreads_ids_nodup cs, ?_⟩
  intro t ht
  obtain ⟨hid, hfalsy, hdone, _, hlast⟩ := buildThreads_mem cs t ht
  refine ⟨?_, hid, hfalsy, ?_⟩
  · rw [← lastRootWith_eq_getLast]
    exact hlast
  · intro x hx
    exact (hdone.2.1 x hx).1

/-- C10, witness: with two roots sharing id 7, the built thread's root is the
later one (`dupB`). -/
theorem buildThreads_dup_roots_witness :
    ([dupA, dupB].filter (fun c => !optNatTruthy c.inReplyToId && c.id == dupThread.id)).getLast?
      = some dupThread.rootComment ∧
    dupThread.id = dupThread.rootComment.id ∧
    optNatTruthy dupThread.rootComment.inReplyToId = false ∧
    ∀ x ∈ dupThread.replies, optNatTruthy x.inReplyToId = true :=
  (buildThreads_dup_roots [dupA, dupB]).2 dupThread (by decide)
